import Mathlib

/-!
# Local object storage of neofs-node: write-cache, shard and engine configuration

A shallow embedding of

* `pkg/local_object_storage/writecache/put.go`   (`cache.Put`),
* `pkg/local_object_storage/writecache/flush.go` (`flush`, `flushBigObjects`,
  `flushWorker`, `writeObject`),
* `pkg/local_object_storage/shard/head.go`       (`Shard.Head`),
* `cmd/neofs-node/config/engine/config.go`       (`IterateShards`),
* `pkg/morph/client/multi.go`                    (`endpoints.init`, `switchRPC`),

followed by the theorems about them.  Go's `uint64` values are natural numbers
and every `uint64` operation that can wrap is written with an explicit
`% 2 ^ 64`.  Calls into collaborators (blobstor, metabase, the SDK) are
parameters of the definitions, and the calls made are recorded in a trace.
-/

/-- Go `error` values.  `ErrReadOnly` and `ErrBigObject` are the package-level
errors of the write-cache, `external` is an error made by code outside of the
modelled files, `wrapf msg e` is `fmt.Errorf(msg + ": %w", e)`. -/
inductive GoError where
  | ErrReadOnly
  | ErrBigObject
  | external (msg : String)
  | wrapf (msg : String) (inner : GoError)
deriving DecidableEq, Repr

/-- Number of values of a Go `uint64`. -/
def u64 : Nat := 2 ^ 64

namespace WriteCache

/-- A byte slice. -/
abbrev Bytes := List Nat

/-- The part of an SDK object the write-cache looks at: its encoded address
(`object.AddressOf(o).EncodeToString()`), the value of
`o.ToV2().StableSize()` and the payload. -/
structure Object where
  addr : String
  stableSize : Nat
  payload : Bytes
deriving DecidableEq, Repr

/-- `objectInfo` of the write-cache; `flush` builds entries without `obj`. -/
structure objectInfo where
  addr : String
  obj : Option Object
  data : Bytes
deriving DecidableEq, Repr

/-- State of the write-cache.  `readOnly` is the value `c.readOnly()` returns,
`db` is the default bucket of the key/value file in cursor order, `fsTree` the
tree of large objects, `flushed` the set of flushed addresses with the flag
stored next to each, `compressFlags` the keys of the map of that name. -/
structure cache where
  readOnly : Bool
  maxObjectSize : Nat
  smallObjectSize : Nat
  maxMemSize : Nat
  curMemSize : Nat
  mem : List objectInfo
  db : List (String × Bytes)
  fsTree : List (String × Bytes)
  flushed : List (String × Bool)
  compressFlags : List String
deriving DecidableEq, Repr

/-- Lexicographic order of byte strings, the order of the keys of a bucket. -/
def bytesLt : List Nat → List Nat → Bool
  | [], [] => false
  | [], _ :: _ => true
  | _ :: _, [] => false
  | a :: as, b :: bs => if a < b then true else if b < a then false else bytesLt as bs

/-- Order of two keys given as strings (code points compare as their UTF-8
encodings do). -/
def keyLt (a b : String) : Bool :=
  bytesLt (a.toList.map Char.toNat) (b.toList.map Char.toNat)

/-- Put of a key into a bucket kept in key order; a key that is present is
overwritten. -/
def kvPut (k : String) (v : Bytes) : List (String × Bytes) → List (String × Bytes)
  | [] => [(k, v)]
  | (k₁, v₁) :: rest =>
    if k = k₁ then (k, v) :: rest
    else if keyLt k k₁ then (k, v) :: (k₁, v₁) :: rest
    else (k₁, v₁) :: kvPut k v rest

/-- Put of a file into a tree of files; a file that is present is overwritten. -/
def fsPut (k : String) (v : Bytes) : List (String × Bytes) → List (String × Bytes)
  | [] => [(k, v)]
  | (k₁, v₁) :: rest =>
    if k = k₁ then (k, v) :: rest else (k₁, v₁) :: fsPut k v rest

/-- Modelled from the spec: `persistSmallObjects` (its file is not among the
sources).  "Persist synchronously: small objects to the KV file under the
default bucket"; "an address already present is overwritten". -/
def persistSmallObjects (objs : List objectInfo) (c : cache) : cache :=
  { c with db := objs.foldl (fun db oi => kvPut oi.addr oi.data db) c.db }

/-- Modelled from the spec: `persistBigObject` (its file is not among the
sources).  "Large objects via the FSTree"; "an address already present is
overwritten". -/
def persistBigObject (oi : objectInfo) (c : cache) : cache :=
  { c with fsTree := fsPut oi.addr oi.data c.fsTree }

/-- A call of one of the two persist operations. -/
inductive PersistCall where
  | small (objs : List objectInfo)
  | big (oi : objectInfo)
deriving DecidableEq, Repr

/-- What `Put` leaves behind: the returned error (`none` is `nil`), the cache
after the call and the persist operations it invoked, in order. -/
structure PutResult where
  err : Option GoError
  c : cache
  persisted : List PersistCall
deriving DecidableEq, Repr

/-- `sz := uint64(o.ToV2().StableSize())`. -/
def sz (o : Object) : Nat := o.stableSize % u64

/-- `cache.Put` of put.go.  `marshal` is `o.Marshal()` of the SDK. -/
def Put (marshal : Object → Except String Bytes) (c : cache) (o : Object) : PutResult :=
  if c.readOnly then
    { err := some GoError.ErrReadOnly, c := c, persisted := [] }
  else if sz o > c.maxObjectSize then
    { err := some GoError.ErrBigObject, c := c, persisted := [] }
  else
    match marshal o with
    | Except.error e => { err := some (GoError.external e), c := c, persisted := [] }
    | Except.ok data =>
      let oi : objectInfo := { addr := o.addr, obj := some o, data := data }
      if sz o ≤ c.smallObjectSize ∧ (c.curMemSize + sz o) % u64 ≤ c.maxMemSize then
        { err := none
          c := { c with curMemSize := (c.curMemSize + sz o) % u64, mem := c.mem ++ [oi] }
          persisted := [] }
      else if sz o ≤ c.smallObjectSize then
        { err := none, c := persistSmallObjects [oi] c, persisted := [PersistCall.small [oi]] }
      else
        { err := none, c := persistBigObject oi c, persisted := [PersistCall.big oi] }

/-- A marshaller for the examples: the payload is the marshalled form. -/
def payloadMarshal (o : Object) : Except String Bytes := Except.ok o.payload

/-- An empty read-write cache with the given limits. -/
def emptyCache (maxObjectSize smallObjectSize maxMemSize : Nat) : cache :=
  { readOnly := false, maxObjectSize := maxObjectSize, smallObjectSize := smallObjectSize
    maxMemSize := maxMemSize, curMemSize := 0, mem := [], db := [], fsTree := []
    flushed := [], compressFlags := [] }

end WriteCache

namespace WriteCache

/-- The bytes of marshalled objects held in the in-memory list. -/
def memBytes (c : cache) : Nat := (c.mem.map (fun oi => oi.data.length)).sum

/-- An object for the examples whose marshalled form, the payload, has the
length the object reports as its size, `kib` KiB. -/
def kibObject (addr : String) (kib : Nat) (fill : Nat) : Object :=
  { addr := addr, stableSize := kib * 1024, payload := List.replicate (kib * 1024) fill }

/-- Scenario S3: `small_object_size = 64 KiB`, `max_mem_size = 128 KiB`. -/
def s3Cache : cache := emptyCache (2 ^ 20) (64 * 1024) (128 * 1024)

/-- The cache of scenario S3 after its first two puts of 32-KiB objects. -/
def s3After2 : cache :=
  (Put payloadMarshal (Put payloadMarshal s3Cache (kibObject "a" 32 1)).c
    (kibObject "b" 32 2)).c

/-- The cache of scenario S3 after its three puts of 32-KiB objects. -/
def s3After3 : cache := (Put payloadMarshal s3After2 (kibObject "c" 32 3)).c

end WriteCache

namespace shard

/-- An encoded object address. -/
abbrev Address := String

/-- An object header as returned by the write-cache and the metabase. -/
abbrev Header := WriteCache.Object

/-- `HeadPrm` of head.go. -/
structure HeadPrm where
  addr : Address
  raw : Bool
deriving DecidableEq, Repr

/-- `HeadRes` of head.go; `obj` is a pointer, `none` in the zero `HeadRes{}`. -/
structure HeadRes where
  obj : Option Header
deriving DecidableEq, Repr

/-- A call `Head` makes to one of the two stores of the shard. -/
inductive Call where
  | writeCacheHead (addr : Address)
  | metaBaseGet (addr : Address) (raw : Bool)
deriving DecidableEq, Repr

/-- The parts of a shard `Head` uses: `hasWriteCache`, `writeCache.Head` and
`metaBase.Get` followed by `res.Header()`.  Their code is outside of head.go,
so they are fields. -/
structure Shard where
  hasWriteCache : Bool
  writeCacheHead : Address → Except GoError Header
  metaBaseGet : Address → Bool → Except GoError Header

/-- What `Head` returns, `(HeadRes, error)`, and the calls it made, in order. -/
structure HeadOut where
  res : HeadRes
  err : Option GoError
  calls : List Call
deriving DecidableEq, Repr

/-- The tail of `Head`: the lookup in the metabase. -/
def headMeta (s : Shard) (prm : HeadPrm) (calls : List Call) : HeadOut :=
  match s.metaBaseGet prm.addr prm.raw with
  | Except.error err =>
    { res := { obj := none }, err := some err
      calls := calls ++ [Call.metaBaseGet prm.addr prm.raw] }
  | Except.ok header =>
    { res := { obj := some header }, err := none
      calls := calls ++ [Call.metaBaseGet prm.addr prm.raw] }

/-- `Shard.Head` of head.go.  `IsErrNotFound` is `writecache.IsErrNotFound`. -/
def Head (IsErrNotFound : GoError → Bool) (s : Shard) (prm : HeadPrm) : HeadOut :=
  if s.hasWriteCache then
    match s.writeCacheHead prm.addr with
    | Except.ok header =>
      { res := { obj := some header }, err := none, calls := [Call.writeCacheHead prm.addr] }
    | Except.error err =>
      if !IsErrNotFound err then
        { res := { obj := none }
          err := some (GoError.wrapf "could not read header from write-cache" err)
          calls := [Call.writeCacheHead prm.addr] }
      else
        headMeta s prm [Call.writeCacheHead prm.addr]
  else
    headMeta s prm []

/-- The errors of the API status kind "object not found", for the examples. -/
def notFound : GoError := GoError.external "object not found"

/-- The errors of the API status kind "object already removed", for the examples. -/
def alreadyRemoved : GoError := GoError.external "object already removed"

/-- An `IsErrNotFound` for the examples: `errors.As` through the `%w` wrappers. -/
def isNotFound : GoError → Bool
  | GoError.wrapf _ inner => isNotFound inner
  | e => decide (e = notFound)

/-- A shard whose write-cache holds "a", fails on "x" with a corrupted entry and
misses everything else, and whose metabase holds "b" and has "c" as removed. -/
def demoShard (hasWriteCache : Bool) : Shard :=
  { hasWriteCache := hasWriteCache
    writeCacheHead := fun addr =>
      if addr = "a" then Except.ok ⟨"a", 10, [1]⟩
      else if addr = "x" then Except.error (GoError.external "unexpected EOF")
      else Except.error notFound
    metaBaseGet := fun addr _ =>
      if addr = "b" then Except.ok ⟨"b", 20, [2]⟩
      else if addr = "c" then Except.error alreadyRemoved
      else Except.error notFound }

end shard

namespace WriteCache

/-- A `*blobovnicza.ID`, the location hint; the pointer is `nil` for `none`. -/
abbrev BlobovniczaID := List Nat

/-- A call `writeObject` makes to the main storage. -/
inductive StoreCall where
  | blobstorPut (obj : Object)
  | metabasePut (obj : Object) (id : Option BlobovniczaID)
deriving DecidableEq, Repr

/-- The main storage behind the write-cache over a state `σ`:
`c.blobstor.Put` followed by `res.BlobovniczaID()`, and `c.metabase.Put`, whose
only result used is the error. -/
structure Storage (σ : Type) where
  blobstorPut : Object → σ → Except GoError (Option BlobovniczaID) × σ
  metabasePut : Object → Option BlobovniczaID → σ → Option GoError × σ

/-- What `writeObject` leaves behind: its error, the state of the main storage
and the calls made, in order. -/
structure WriteOut (σ : Type) where
  err : Option GoError
  state : σ
  calls : List StoreCall

/-- `cache.writeObject` of flush.go. -/
def writeObject {σ : Type} (st : Storage σ) (obj : Object) (metaOnly : Bool) (s : σ) :
    WriteOut σ :=
  let pre : Except GoError (Option BlobovniczaID) × σ × List StoreCall :=
    if !metaOnly then
      ((st.blobstorPut obj s).1, (st.blobstorPut obj s).2, [StoreCall.blobstorPut obj])
    else
      (Except.ok none, s, [])
  match pre with
  | (Except.error err, s₁, calls) => { err := some err, state := s₁, calls := calls }
  | (Except.ok id, s₁, calls) =>
    { err := (st.metabasePut obj id s₁).1
      state := (st.metabasePut obj id s₁).2
      calls := calls ++ [StoreCall.metabasePut obj id] }

/-- The three channels a flush worker receives from. -/
inductive Chan where
  | directCh
  | flushCh
  | metaCh
deriving DecidableEq, Repr

/-- The objects queued in each channel and whether `closeCh` is closed. -/
structure Chans where
  directCh : List Object
  flushCh : List Object
  metaCh : List Object
  closed : Bool
deriving DecidableEq, Repr

/-- The queue of a channel. -/
def Chans.queue (ch : Chans) : Chan → List Object
  | Chan.directCh => ch.directCh
  | Chan.flushCh => ch.flushCh
  | Chan.metaCh => ch.metaCh

/-- The channels with the queue of one of them replaced. -/
def Chans.setQueue (ch : Chans) : Chan → List Object → Chans
  | Chan.directCh, q => { ch with directCh := q }
  | Chan.flushCh, q => { ch with flushCh := q }
  | Chan.metaCh, q => { ch with metaCh := q }

/-- A receive that does not wait: the first queued object, if any. -/
def Chans.recv (ch : Chans) (k : Chan) : Option (Object × Chans) :=
  match ch.queue k with
  | [] => none
  | obj :: rest => some (obj, ch.setQueue k rest)

/-- The head of `flushWorker`: `priorityCh` is `c.directCh` unless `num % 3`
(Go's remainder, truncated towards zero) is `0` or `1`. -/
def priorityCh (num : Int) : Chan :=
  if Int.tmod num 3 = 0 then Chan.flushCh
  else if Int.tmod num 3 = 1 then Chan.metaCh
  else Chan.directCh

/-- The case of the inner `select` the runtime takes. -/
inductive Pick where
  | directCh
  | flushCh
  | metaCh
  | closeCh
deriving DecidableEq, Repr

/-- The case of the inner `select` that receives from a channel. -/
def Pick.ofChan : Chan → Pick
  | Chan.directCh => Pick.directCh
  | Chan.flushCh => Pick.flushCh
  | Chan.metaCh => Pick.metaCh

/-- How the two nested `select`s of one iteration of `flushWorker` end:
with an object, the value of `metaOnly` and the channel it came from; with
`return`; or waiting, when the case picked is not ready. -/
inductive Selected where
  | object (obj : Object) (metaOnly : Bool) (src : Chan) (ch : Chans)
  | ret
  | waiting
deriving DecidableEq, Repr

/-- The inner, waiting `select` of `flushWorker` taking the case `pick`. -/
def innerSelect (pick : Pick) (ch : Chans) : Selected :=
  match pick with
  | Pick.directCh =>
    match ch.recv Chan.directCh with
    | some (obj, ch₁) => Selected.object obj false Chan.directCh ch₁
    | none => Selected.waiting
  | Pick.flushCh =>
    match ch.recv Chan.flushCh with
    | some (obj, ch₁) => Selected.object obj false Chan.flushCh ch₁
    | none => Selected.waiting
  | Pick.metaCh =>
    match ch.recv Chan.metaCh with
    | some (obj, ch₁) => Selected.object obj true Chan.metaCh ch₁
    | none => Selected.waiting
  | Pick.closeCh => if ch.closed then Selected.ret else Selected.waiting

/-- The two nested `select`s of one iteration of `flushWorker`: the outer one
receives from `priorityCh` without waiting, its `default` is the inner one. -/
def flushWorkerSelect (num : Int) (pick : Pick) (ch : Chans) : Selected :=
  match ch.recv (priorityCh num) with
  | some (obj, ch₁) => Selected.object obj (decide (Int.tmod num 3 = 1)) (priorityCh num) ch₁
  | none => innerSelect pick ch

/-- What happens around a worker: another goroutine sends to a channel or
closes `closeCh`, or the worker runs one iteration of its loop. -/
inductive Event where
  | send (k : Chan) (obj : Object)
  | close
  | iterate (pick : Pick)
deriving DecidableEq, Repr

/-- A call of `writeObject` by a worker, with the channel its object came from. -/
structure WorkerWrite where
  obj : Object
  metaOnly : Bool
  src : Chan
deriving DecidableEq, Repr

/-- A run of a worker: whether it returned, its calls of `writeObject` in
order, the calls those made to the main storage, and the final states. -/
structure WorkerOut (σ : Type) where
  returned : Bool
  writes : List WorkerWrite
  calls : List StoreCall
  chans : Chans
  state : σ

/-- `cache.flushWorker` of flush.go along a schedule of events.  `inner` tells
that the worker waits in the inner `select`, where an event `iterate pick`
resumes it; otherwise `iterate pick` starts an iteration of the loop.  The
error of `writeObject` is logged only. -/
def flushWorker {σ : Type} (st : Storage σ) (num : Int) :
    List Event → Bool → Chans → σ → WorkerOut σ
  | [], _, ch, s => { returned := false, writes := [], calls := [], chans := ch, state := s }
  | Event.send k obj :: evs, inner, ch, s =>
    flushWorker st num evs inner (ch.setQueue k (ch.queue k ++ [obj])) s
  | Event.close :: evs, inner, ch, s => flushWorker st num evs inner { ch with closed := true } s
  | Event.iterate pick :: evs, inner, ch, s =>
    match (if inner then innerSelect pick ch else flushWorkerSelect num pick ch) with
    | Selected.ret => { returned := true, writes := [], calls := [], chans := ch, state := s }
    | Selected.waiting => flushWorker st num evs true ch s
    | Selected.object obj metaOnly src ch₁ =>
      let w := writeObject st obj metaOnly s
      let out := flushWorker st num evs false ch₁ w.state
      { out with writes := ⟨obj, metaOnly, src⟩ :: out.writes, calls := w.calls ++ out.calls }

/-- A main storage for the examples: its state counts the failures still to
be injected into the blobstor, objects with an address of at most two
characters get the location hint `[7]`, and the metabase refuses the address
"bad". -/
def demoStorage : Storage Nat :=
  { blobstorPut := fun obj n =>
      if n = 0 then (Except.ok (if obj.addr.length ≤ 2 then some [7] else none), 0)
      else (Except.error (GoError.external "disk"), n - 1)
    metabasePut := fun obj _ n =>
      (if obj.addr = "bad" then some (GoError.external "metabase") else none, n) }

end WriteCache

namespace WriteCache

/-- `flushBatchSize` of flush.go. -/
def flushBatchSize : Nat := 512

/-- `c.flushed.Peek(key)`: whether the key is in the set of flushed addresses. -/
def flushedPeek (flushed : List (String × Bool)) (key : String) : Bool :=
  flushed.any (fun e => decide (e.1 = key))

/-- `c.flushed.Add(key, value)` below the capacity of the set: the entry becomes
the most recent one, an entry of the same key is replaced. -/
def flushedAdd (key : String) (value : Bool) (flushed : List (String × Bool)) :
    List (String × Bool) :=
  (key, value) :: flushed.filter (fun e => !decide (e.1 = key))

/-- The cursor loop inside `c.db.View` of `flush`: from the first key on (the
cursor seeks `lastKey`, which is always the empty key), while fewer than
`flushBatchSize` entries are collected, the entries whose key is not in the
flushed set are appended to `m`. -/
def collectBatch (flushed : List (String × Bool)) :
    List (String × Bytes) → List objectInfo → List objectInfo
  | [], m => m
  | (k, v) :: rest, m =>
    if m.length < flushBatchSize then
      if flushedPeek flushed k then collectBatch flushed rest m
      else collectBatch flushed rest (m ++ [{ addr := k, obj := none, data := v }])
    else m

/-- The loop of `flush` over the batch that unmarshals each entry and sends the
object to `flushCh`.  An entry that fails to unmarshal is passed over.  Each
`select` takes its case from `choices`: `true` is the send, `false` is
`closeCh`, on which `flush` returns; an empty list lets every send through.
The result is the objects sent, whether `closeCh` was taken, and the choices
left. -/
def submitBatch (unmarshal : Bytes → Option Object) :
    List objectInfo → List Bool → List Object × Bool × List Bool
  | [], choices => ([], false, choices)
  | oi :: m, choices =>
    match unmarshal oi.data with
    | none => submitBatch unmarshal m choices
    | some obj =>
      match choices with
      | false :: choices₁ => ([], true, choices₁)
      | true :: choices₁ =>
        ((obj :: (submitBatch unmarshal m choices₁).1),
          (submitBatch unmarshal m choices₁).2.1, (submitBatch unmarshal m choices₁).2.2)
      | [] =>
        ((obj :: (submitBatch unmarshal m []).1),
          (submitBatch unmarshal m []).2.1, (submitBatch unmarshal m []).2.2)

/-- How one pass of the loop of `flush` ends: with `continue` or the end of the
body, with `break`, or with `return` on `closeCh`. -/
inductive PassEnd where
  | again
  | done
  | closed
deriving DecidableEq, Repr

/-- One pass of the loop of `flush`: the cache after it, the batch `m` it
collected, the objects it sent to `flushCh`, the arguments of its calls of
`evictObjects`, how it ended and the choices left. -/
structure PassOut where
  c : cache
  batch : List objectInfo
  sent : List Object
  evictCalls : List Nat
  ending : PassEnd
  choices : List Bool
deriving DecidableEq, Repr

/-- One pass of the loop of `cache.flush` of flush.go. -/
def flushPass (unmarshal : Bytes → Option Object) (c : cache) (choices : List Bool) : PassOut :=
  if c.readOnly then
    { c := c, batch := [], sent := [], evictCalls := [], ending := PassEnd.again
      choices := choices }
  else
    let m := collectBatch c.flushed c.db []
    let sub := submitBatch unmarshal m choices
    if sub.2.1 then
      { c := c, batch := m, sent := sub.1, evictCalls := [], ending := PassEnd.closed
        choices := sub.2.2 }
    else if m.length = 0 then
      { c := c, batch := m, sent := sub.1, evictCalls := [], ending := PassEnd.done
        choices := sub.2.2 }
    else
      { c := { c with flushed := m.foldl (fun fl oi => flushedAdd oi.addr true fl) c.flushed }
        batch := m, sent := sub.1, evictCalls := [m.length], ending := PassEnd.again
        choices := sub.2.2 }

/-- The passes of `cache.flush`, at most `fuel` of them: `none` when the loop is
still running after `fuel` passes, else the outputs of the passes made. -/
def flush (unmarshal : Bytes → Option Object) : Nat → cache → List Bool → Option (List PassOut)
  | 0, _, _ => none
  | fuel + 1, c, choices =>
    let p := flushPass unmarshal c choices
    match p.ending with
    | PassEnd.again => (flush unmarshal fuel p.c p.choices).map (fun ps => p :: ps)
    | _ => some [p]

/-- The reading of a file of the FSTree (the thunk `f` handed to the lazy
handler) and `c.blobstor.PutRaw`, of which only the error is used. -/
structure BigDeps where
  read : String → Bytes → Except GoError Bytes
  putRaw : String → Bytes → Bool → Option GoError

/-- What the lazy handler of `flushBigObjects` has done so far in an
iteration of the FSTree: the cache, `evictNum` and the calls of `PutRaw`. -/
structure BigAcc where
  c : cache
  evictNum : Nat
  putRaws : List (String × Bytes × Bool)
deriving DecidableEq, Repr

/-- The lazy handler of `flushBigObjects` on one file of the FSTree. -/
def bigHandler (deps : BigDeps) (acc : BigAcc) (file : String × Bytes) : BigAcc :=
  if flushedPeek acc.c.flushed file.1 then acc
  else
    match deps.read file.1 file.2 with
    | Except.error _ => acc
    | Except.ok data =>
      let compress := decide (file.1 ∈ acc.c.compressFlags)
      match deps.putRaw file.1 data compress with
      | some _ => { acc with putRaws := acc.putRaws ++ [(file.1, data, compress)] }
      | none =>
        { c := { acc.c with
                  compressFlags :=
                    if compress then acc.c.compressFlags.filter (fun a => !decide (a = file.1))
                    else acc.c.compressFlags
                  flushed := flushedAdd file.1 false acc.c.flushed }
          evictNum := acc.evictNum + 1
          putRaws := acc.putRaws ++ [(file.1, data, compress)] }

/-- The case of the `select` of `flushBigObjects` the runtime takes. -/
inductive BigCase where
  | tick
  | closeCh
deriving DecidableEq, Repr

/-- What happens around the big-object flusher: `closeCh` is closed by another
goroutine, or its `select` takes a case. -/
inductive BigEvent where
  | close
  | select (case : BigCase)
deriving DecidableEq, Repr

/-- How the body of a `select` case leaves the `select`: at its end, by
`break`, or by `return`. -/
inductive CaseEnd where
  | fallsOut
  | breaks
  | returns
deriving DecidableEq, Repr

/-- The state of a run of the big-object flusher. -/
structure BigState where
  c : cache
  closed : Bool
  putRaws : List (String × Bytes × Bool)
  evictCalls : List Nat
deriving DecidableEq, Repr

/-- The body of the case `<-tick.C` of `flushBigObjects`. -/
def bigTick (deps : BigDeps) (st : BigState) : BigState × CaseEnd :=
  if st.c.readOnly then (st, CaseEnd.breaks)
  else
    let acc := st.c.fsTree.foldl (bigHandler deps) { c := st.c, evictNum := 0, putRaws := [] }
    ({ st with c := acc.c, putRaws := st.putRaws ++ acc.putRaws
               evictCalls := st.evictCalls ++ [acc.evictNum] }, CaseEnd.fallsOut)

/-- The body of the case `<-c.closeCh` of `flushBigObjects`: it is empty. -/
def bigClose (st : BigState) : BigState × CaseEnd := (st, CaseEnd.fallsOut)

/-- `cache.flushBigObjects` of flush.go along a schedule of events: the final
state and whether the function has returned.  A `select` case that is not
ready (`closeCh` before the close) leaves the flusher waiting. -/
def flushBigObjects (deps : BigDeps) : List BigEvent → BigState → BigState × Bool
  | [], st => (st, false)
  | BigEvent.close :: evs, st => flushBigObjects deps evs { st with closed := true }
  | BigEvent.select BigCase.tick :: evs, st =>
    match (bigTick deps st).2 with
    | CaseEnd.returns => ((bigTick deps st).1, true)
    | _ => flushBigObjects deps evs (bigTick deps st).1
  | BigEvent.select BigCase.closeCh :: evs, st =>
    if st.closed then
      match (bigClose st).2 with
      | CaseEnd.returns => ((bigClose st).1, true)
      | _ => flushBigObjects deps evs (bigClose st).1
    else flushBigObjects deps evs st

/-- `wg.Wait()` of `flushLoop` after `closeCh`: it completes when every worker
and the big-object flusher have returned. -/
def flushLoopWaitDone (workersReturned : List Bool) (bigReturned : Bool) : Bool :=
  workersReturned.all id && bigReturned

/-- An unmarshaller for the examples: `1 :: payload` is the object "a",
`2 :: payload` the object "b", anything else is corrupted. -/
def demoUnmarshal : Bytes → Option Object
  | 1 :: payload => some ⟨"a", payload.length + 1, payload⟩
  | 2 :: payload => some ⟨"b", payload.length + 1, payload⟩
  | _ => none

/-- A cache whose key/value store holds the object "a" and, under "b", bytes
that do not unmarshal. -/
def corruptCache : cache :=
  { emptyCache 100 10 20 with db := [("a", [1, 7]), ("b", [0])] }

/-- Files are read as they are and the blobstor takes every object. -/
def demoBigDeps : BigDeps :=
  { read := fun _ data => Except.ok data, putRaw := fun _ _ _ => none }

end WriteCache

namespace engineconfig

/-- The operations of `*config.Config` that `IterateShards` uses, over a type
`Cfg` of configurations; the package that defines them is outside of
config.go.  `Value` gives `none` for Go's `nil`; `SetDefault sc d` is `sc`
after `sc.SetDefault(d)`. -/
structure ConfigOps (Cfg : Type) where
  Sub : Cfg → String → Cfg
  Value : Cfg → String → Option String
  SetDefault : Cfg → Cfg → Cfg

/-- `strconv.FormatUint(i, 10)`. -/
def FormatUint (i : Nat) : String := Nat.repr i

/-- The section "storage.shard.<i>" of a configuration. -/
def shardSection {Cfg : Type} (ops : ConfigOps Cfg) (c : Cfg) (i : Nat) : Cfg :=
  ops.Sub (ops.Sub (ops.Sub c "storage") "shard") (FormatUint i)

/-- The section "storage.shard.default" of a configuration. -/
def defaultSection {Cfg : Type} (ops : ConfigOps Cfg) (c : Cfg) : Cfg :=
  ops.Sub (ops.Sub (ops.Sub c "storage") "shard") "default"

/-- The loop of `IterateShards` from index `i` on, `c` being the section
"storage.shard" and `dflt` its subsection "default": the value of `i` at the
`break` and the sections handed to `f`, in order; `none` when the loop is
still running after `fuel` iterations.  `i` is a `uint64`. -/
def shardLoop {Cfg : Type} (ops : ConfigOps Cfg) (c dflt : Cfg) : Nat → Nat → Option (Nat × List Cfg)
  | 0, _ => none
  | fuel + 1, i =>
    if (ops.Value (ops.Sub c (FormatUint i)) "blobstor.path").isNone then some (i, [])
    else
      (shardLoop ops c dflt fuel ((i + 1) % u64)).map
        (fun r => (r.1, ops.SetDefault (ops.Sub c (FormatUint i)) dflt :: r.2))

/-- What a call of `IterateShards` does: the sections `f` is called on, in
order, and whether it panics with "no shard configured". -/
structure IterateOut (Cfg : Type) where
  calls : List Cfg
  panicked : Bool

/-- `IterateShards` of config.go; `none` when its loop is still running after
`fuel` iterations. -/
def IterateShards {Cfg : Type} (ops : ConfigOps Cfg) (c : Cfg) (required : Bool) (fuel : Nat) :
    Option (IterateOut Cfg) :=
  (shardLoop ops (ops.Sub (ops.Sub c "storage") "shard")
      (ops.Sub (ops.Sub (ops.Sub c "storage") "shard") "default") fuel 0).map
    (fun r => { calls := r.2, panicked := decide (r.1 = 0) && required })

/-- A configuration for the examples: the path of a section, the path of its
default section, and the values by full path. -/
structure DemoCfg where
  path : List String
  dflt : Option (List String)
  values : List (List String × String)
deriving DecidableEq, Repr

/-- The operations on `DemoCfg`. -/
def demoOps : ConfigOps DemoCfg :=
  { Sub := fun c name => { c with path := c.path ++ [name] }
    Value := fun c name =>
      (c.values.find? (fun kv => decide (kv.1 = c.path ++ [name]))).map (fun kv => kv.2)
    SetDefault := fun sc d => { sc with dflt := some d.path } }

/-- A configuration with the shards 0 and 1, and a section 3 after a gap. -/
def demoCfg : DemoCfg :=
  { path := [], dflt := none
    values := [(["storage", "shard", "0", "blobstor.path"], "/srv/0"),
               (["storage", "shard", "1", "blobstor.path"], "/srv/1"),
               (["storage", "shard", "3", "blobstor.path"], "/srv/3"),
               (["storage", "shard", "default", "blobstor.path"], "/srv/default")] }

end engineconfig

namespace client

/-- `Endpoint` of multi.go: a morph endpoint together with its priority. -/
structure Endpoint where
  Address : String
  Priority : Int
deriving DecidableEq, Repr

/-- `endpoints` of multi.go; `curr` is an index into `list`. -/
structure endpoints where
  curr : Nat
  list : List Endpoint
deriving DecidableEq, Repr

/-- Insertion of an endpoint after the endpoints of strictly smaller `Priority`
and before all others. -/
def insertByPriority (e : Endpoint) : List Endpoint → List Endpoint
  | [] => [e]
  | x :: xs => if x.Priority < e.Priority then x :: insertByPriority e xs else e :: x :: xs

/-- `sort.SliceStable(ee, func(i, j) bool { return ee[i].Priority < ee[j].Priority })`:
ascending `Priority`, endpoints of equal `Priority` keep their order. -/
def sortSliceStable : List Endpoint → List Endpoint
  | [] => []
  | e :: es => insertByPriority e (sortSliceStable es)

/-- `endpoints.init` of multi.go. -/
def endpoints.init (ee : List Endpoint) : endpoints :=
  { curr := 0, list := sortSliceStable ee }

/-- How one attempt on an endpoint goes: whether `newWSClient` gives a client,
whether `cli.Init()` succeeds, whether `c.restoreSubscriptions` gives `true`. -/
structure Attempt where
  connect : Bool
  init : Bool
  restore : Bool
deriving DecidableEq, Repr

/-- The part of `Client` that `switchRPC` touches: the endpoints, the address
`c.client` is a client of and whether that client is closed, and the number of
calls of `c.cache.invalidate()`. -/
structure Client where
  endpoints : endpoints
  client : String
  clientClosed : Bool
  invalidated : Nat
deriving DecidableEq, Repr

/-- What `switchRPC` leaves behind: the returned value, the client, and the
addresses handed to `newWSClient`, in order. -/
structure SwitchOut where
  ok : Bool
  c : Client
  dialed : List String
deriving DecidableEq, Repr

/-- The loop `for c.endpoints.curr = range c.endpoints.list` of `switchRPC`
over the endpoints from index `i` on.  `net i addr` is how the attempt of the
iteration `i`, made on the address `addr`, goes. -/
def switchLoop (net : Nat → String → Attempt) :
    List Endpoint → Nat → Client → List String → SwitchOut
  | [], _, c, dialed => { ok := false, c := c, dialed := dialed }
  | e :: rest, i, c, dialed =>
    if !(net i e.Address).connect then
      switchLoop net rest (i + 1) { c with endpoints := { c.endpoints with curr := i } }
        (dialed ++ [e.Address])
    else if !(net i e.Address).init then
      switchLoop net rest (i + 1) { c with endpoints := { c.endpoints with curr := i } }
        (dialed ++ [e.Address])
    else if !(net i e.Address).restore then
      switchLoop net rest (i + 1)
        { endpoints := { c.endpoints with curr := i }, client := e.Address
          clientClosed := true, invalidated := c.invalidated + 1 }
        (dialed ++ [e.Address])
    else
      { ok := true
        c := { endpoints := { c.endpoints with curr := i }, client := e.Address
               clientClosed := false, invalidated := c.invalidated + 1 }
        dialed := dialed ++ [e.Address] }

/-- `Client.switchRPC` of multi.go: `c.client.Close()`, then the loop. -/
def switchRPC (net : Nat → String → Attempt) (c : Client) : SwitchOut :=
  switchLoop net c.endpoints.list 0 { c with clientClosed := true } []

/-- An attempt succeeds in full: connect, `Init` and the restore of the
subscriptions. -/
def Attempt.good (a : Attempt) : Bool := a.connect && a.init && a.restore

/-- A network where every attempt succeeds in full. -/
def allUp : Nat → String → Attempt := fun _ _ => ⟨true, true, true⟩

/-- A network where only the node "b" answers. -/
def onlyB : Nat → String → Attempt :=
  fun _ addr => if addr = "b" then ⟨true, true, true⟩ else ⟨false, false, false⟩

/-- A client made with the endpoints "b" (priority 2) and "a" (priority 1),
connected to its endpoint of index `curr`. -/
def demoClient (curr : Nat) : Client :=
  { endpoints := { endpoints.init [⟨"b", 2⟩, ⟨"a", 1⟩] with curr := curr }
    client := if curr = 0 then "a" else "b", clientClosed := false, invalidated := 0 }

end client

/-! ## Theorems -/

namespace WriteCache

/-- C1. In read-only mode `Put` returns `ErrReadOnly` for every object,
whatever its size, and leaves the in-memory list, `curMemSize`, the key/value
store and the FSTree (the whole cache) unchanged, invoking no persist
operation. -/
theorem Put_readOnly (marshal : Object → Except String Bytes) (c : cache) (o : Object)
    (hro : c.readOnly = true) :
    (Put marshal c o).err = some GoError.ErrReadOnly ∧
    (Put marshal c o).c = c ∧
    (Put marshal c o).c.mem = c.mem ∧
    (Put marshal c o).c.curMemSize = c.curMemSize ∧
    (Put marshal c o).c.db = c.db ∧
    (Put marshal c o).c.fsTree = c.fsTree ∧
    (Put marshal c o).persisted = [] := by
  simp [Put, hro]

/-- Witness of C1: a read-only cache with 1-byte limit and an object of size 7. -/
theorem Put_readOnly_witness :
    (Put payloadMarshal { emptyCache 1 1 1 with readOnly := true } ⟨"a", 7, [1]⟩).err
        = some GoError.ErrReadOnly ∧
    (Put payloadMarshal { emptyCache 1 1 1 with readOnly := true } ⟨"a", 7, [1]⟩).c
        = { emptyCache 1 1 1 with readOnly := true } ∧
    (Put payloadMarshal { emptyCache 1 1 1 with readOnly := true } ⟨"a", 7, [1]⟩).persisted = [] :=
  have h := Put_readOnly payloadMarshal { emptyCache 1 1 1 with readOnly := true } ⟨"a", 7, [1]⟩ rfl
  ⟨h.1, h.2.1, h.2.2.2.2.2.2⟩

end WriteCache

namespace WriteCache

/-- C2. In a cache that is not read-only, an object whose size is strictly
greater than `maxObjectSize` is refused with `ErrBigObject`, the in-memory
list, `curMemSize`, the key/value store and the FSTree (the whole cache) stay
as they were and nothing is persisted; an object whose size equals
`maxObjectSize` is not refused with `ErrBigObject`. -/
theorem Put_bigObject (marshal : Object → Except String Bytes) (c : cache) (o : Object)
    (hrw : c.readOnly = false) :
    (sz o > c.maxObjectSize →
      (Put marshal c o).err = some GoError.ErrBigObject ∧
      (Put marshal c o).c = c ∧
      (Put marshal c o).c.mem = c.mem ∧
      (Put marshal c o).c.curMemSize = c.curMemSize ∧
      (Put marshal c o).c.db = c.db ∧
      (Put marshal c o).c.fsTree = c.fsTree ∧
      (Put marshal c o).persisted = []) ∧
    (sz o = c.maxObjectSize → (Put marshal c o).err ≠ some GoError.ErrBigObject) := by
  constructor
  · intro hgt
    simp [Put, hrw, hgt]
  · intro heq
    have hle : ¬ sz o > c.maxObjectSize := by omega
    unfold Put
    simp only [hrw, hle]
    cases marshal o with
    | error e => simp
    | ok data =>
      simp only
      split_ifs <;> simp

/-- Witness of C2: with `maxObjectSize = 4` an object of size 5 is refused and
one of size 4 is taken. -/
theorem Put_bigObject_witness :
    (Put payloadMarshal (emptyCache 4 2 8) ⟨"a", 5, [1]⟩).err = some GoError.ErrBigObject ∧
    (Put payloadMarshal (emptyCache 4 2 8) ⟨"a", 5, [1]⟩).c = emptyCache 4 2 8 ∧
    (Put payloadMarshal (emptyCache 4 2 8) ⟨"b", 4, [1]⟩).err ≠ some GoError.ErrBigObject :=
  have h5 := (Put_bigObject payloadMarshal (emptyCache 4 2 8) ⟨"a", 5, [1]⟩ rfl).1 (by decide)
  have h4 := (Put_bigObject payloadMarshal (emptyCache 4 2 8) ⟨"b", 4, [1]⟩ rfl).2 (by decide)
  ⟨h5.1, h5.2.1, h4⟩

end WriteCache

namespace WriteCache

/-- The routing of `Put` on the code's `uint64` sum.  An accepted `Put` (cache not read-only, size at most
`maxObjectSize`, marshal succeeds) returns `nil` and sends the object to exactly
one store.  It is appended to the end of the in-memory list, with `curMemSize`
becoming `(curMemSize + size) mod 2 ^ 64` and nothing persisted, if and only if
`size ≤ smallObjectSize` and `(curMemSize + size) mod 2 ^ 64 ≤ maxMemSize`;
otherwise it is persisted to the key/value store when `size ≤ smallObjectSize`
and to the FSTree when `size > smallObjectSize`, the in-memory list and
`curMemSize` (and the other store) unchanged.  When `curMemSize + size < 2 ^ 64`
the condition is `curMemSize + size ≤ maxMemSize` and `curMemSize` grows by
exactly `size`. -/
theorem Put_modular_routing (marshal : Object → Except String Bytes) (c : cache) (o : Object)
    (data : Bytes) (hrw : c.readOnly = false) (hsz : sz o ≤ c.maxObjectSize)
    (hm : marshal o = Except.ok data) :
    (Put marshal c o).err = none ∧
    (((Put marshal c o).c.mem = c.mem ++ [⟨o.addr, some o, data⟩] ∧
        (Put marshal c o).persisted = []) ↔
      (sz o ≤ c.smallObjectSize ∧ (c.curMemSize + sz o) % u64 ≤ c.maxMemSize)) ∧
    (sz o ≤ c.smallObjectSize ∧ (c.curMemSize + sz o) % u64 ≤ c.maxMemSize →
      (Put marshal c o).c =
        { c with curMemSize := (c.curMemSize + sz o) % u64,
                 mem := c.mem ++ [⟨o.addr, some o, data⟩] } ∧
      (Put marshal c o).persisted = []) ∧
    (sz o ≤ c.smallObjectSize ∧ ¬ (c.curMemSize + sz o) % u64 ≤ c.maxMemSize →
      (Put marshal c o).c = { c with db := kvPut o.addr data c.db } ∧
      (Put marshal c o).persisted = [PersistCall.small [⟨o.addr, some o, data⟩]]) ∧
    (sz o > c.smallObjectSize →
      (Put marshal c o).c = { c with fsTree := fsPut o.addr data c.fsTree } ∧
      (Put marshal c o).persisted = [PersistCall.big ⟨o.addr, some o, data⟩]) ∧
    (c.curMemSize + sz o < u64 →
      ((c.curMemSize + sz o) % u64 ≤ c.maxMemSize ↔ c.curMemSize + sz o ≤ c.maxMemSize) ∧
      (sz o ≤ c.smallObjectSize ∧ c.curMemSize + sz o ≤ c.maxMemSize →
        (Put marshal c o).c.curMemSize = c.curMemSize + sz o)) := by
  have hle : ¬ sz o > c.maxObjectSize := by omega
  have hP : Put marshal c o =
      if sz o ≤ c.smallObjectSize ∧ (c.curMemSize + sz o) % u64 ≤ c.maxMemSize then
        { err := none
          c := { c with curMemSize := (c.curMemSize + sz o) % u64,
                        mem := c.mem ++ [⟨o.addr, some o, data⟩] }
          persisted := [] }
      else if sz o ≤ c.smallObjectSize then
        { err := none, c := persistSmallObjects [⟨o.addr, some o, data⟩] c,
          persisted := [PersistCall.small [⟨o.addr, some o, data⟩]] }
      else
        { err := none, c := persistBigObject ⟨o.addr, some o, data⟩ c,
          persisted := [PersistCall.big ⟨o.addr, some o, data⟩] } := by
    unfold Put
    simp only [hrw, hle, hm]
    simp
  rw [hP]
  by_cases hs : sz o ≤ c.smallObjectSize
  · by_cases hmem : (c.curMemSize + sz o) % u64 ≤ c.maxMemSize
    · have hnot : ¬ sz o > c.smallObjectSize := by omega
      simp only [hs, hmem, and_self, if_true, true_and, not_true_eq_false, and_false,
        false_implies, implies_true, hnot, true_implies, and_true]
      intro hlt
      rw [Nat.mod_eq_of_lt hlt] at hmem
      exact ⟨⟨fun _ => hmem, fun _ => trivial⟩, fun _ => Nat.mod_eq_of_lt hlt⟩
    · have hnot : ¬ sz o > c.smallObjectSize := by omega
      simp only [hs, hmem, and_false, if_false, if_true, true_and, false_implies,
        not_false_eq_true, true_implies, hnot, persistSmallObjects, List.foldl, and_true]
      refine ⟨by simp, ?_⟩
      intro hlt
      rw [Nat.mod_eq_of_lt hlt] at hmem
      exact ⟨⟨fun h => absurd h.elim hmem, fun h => absurd h hmem⟩, fun h => absurd h hmem⟩
  · have hgt : sz o > c.smallObjectSize := by omega
    simp only [hs, false_and, if_false, persistBigObject, false_implies, hgt, true_implies,
      true_and, and_true]
    refine ⟨by simp, ?_⟩
    intro hlt
    rw [Nat.mod_eq_of_lt hlt]

/-- The sum tested by `Put` does not wrap when `curMemSize` counts the bytes
held in the in-memory list, the size of the object is the length of its
marshalled form, and those bytes together are fewer than `2 ^ 64`, as the
bytes in the memory of one process are. -/
theorem Put_sum_fits (c : cache) (o : Object) (data : Bytes)
    (hacc : c.curMemSize = memBytes c) (hlen : o.stableSize = data.length)
    (hmem : memBytes c + data.length < u64) :
    c.curMemSize + sz o < u64 := by
  have hle : sz o ≤ o.stableSize := Nat.mod_le _ _
  rw [hacc]
  omega

/-- The in-memory list of scenario S3 after its three puts holds 96 KiB, the
value of `curMemSize`. -/
theorem s3After3_memBytes :
    memBytes s3After3 = 96 * 1024 ∧ s3After3.curMemSize = memBytes s3After3 := by
  have hdata : s3After3.mem.map (fun oi => oi.data) =
      [List.replicate (32 * 1024) 1, List.replicate (32 * 1024) 2,
        List.replicate (32 * 1024) 3] := rfl
  have hbytes : memBytes s3After3 =
      ((s3After3.mem.map (fun oi => oi.data)).map List.length).sum := by
    rw [List.map_map]; rfl
  have h96 : memBytes s3After3 = 96 * 1024 := by
    rw [hbytes, hdata]
    simp only [List.map_cons, List.map_nil, List.length_replicate, List.sum_cons, List.sum_nil]
    decide
  exact ⟨h96, by rw [h96]; decide⟩

/-- Witness of `Put_sum_fits`: the fourth put of scenario S3. -/
theorem Put_sum_fits_witness :
    s3After3.curMemSize + sz (kibObject "d" 65 4) < u64 :=
  Put_sum_fits s3After3 (kibObject "d" 65 4) (List.replicate (65 * 1024) 4)
    s3After3_memBytes.2 (by rw [List.length_replicate]; rfl)
    (by rw [s3After3_memBytes.1, List.length_replicate]; decide)

/-- C3. For every accepted `Put` (cache not read-only, size at most
`maxObjectSize`, marshal succeeds; `curMemSize + size`, a count of bytes held
in memory, is below `2 ^ 64`) `Put` returns `nil` and the object goes to
exactly one of the three stores: it is appended to the end of the in-memory
list and `curMemSize` grows by exactly `size`, nothing being persisted, if and
only if `size ≤ smallObjectSize` and `curMemSize + size ≤ maxMemSize`;
otherwise it is persisted to the key/value store when `size ≤ smallObjectSize`
and to the FSTree when `size > smallObjectSize`, with the in-memory list and
`curMemSize` (and the other store) unchanged. -/
theorem Put_routing (marshal : Object → Except String Bytes) (c : cache) (o : Object)
    (data : Bytes) (hrw : c.readOnly = false) (hsz : sz o ≤ c.maxObjectSize)
    (hm : marshal o = Except.ok data) (hfit : c.curMemSize + sz o < u64) :
    (Put marshal c o).err = none ∧
    (((Put marshal c o).c.mem = c.mem ++ [⟨o.addr, some o, data⟩] ∧
        (Put marshal c o).c.curMemSize = c.curMemSize + sz o ∧
        (Put marshal c o).persisted = []) ↔
      (sz o ≤ c.smallObjectSize ∧ c.curMemSize + sz o ≤ c.maxMemSize)) ∧
    (sz o ≤ c.smallObjectSize ∧ c.curMemSize + sz o ≤ c.maxMemSize →
      (Put marshal c o).c =
        { c with curMemSize := c.curMemSize + sz o,
                 mem := c.mem ++ [⟨o.addr, some o, data⟩] } ∧
      (Put marshal c o).persisted = []) ∧
    (sz o ≤ c.smallObjectSize ∧ ¬ c.curMemSize + sz o ≤ c.maxMemSize →
      (Put marshal c o).c = { c with db := kvPut o.addr data c.db } ∧
      (Put marshal c o).persisted = [PersistCall.small [⟨o.addr, some o, data⟩]]) ∧
    (sz o > c.smallObjectSize →
      (Put marshal c o).c = { c with fsTree := fsPut o.addr data c.fsTree } ∧
      (Put marshal c o).persisted = [PersistCall.big ⟨o.addr, some o, data⟩]) := by
  have hmod : (c.curMemSize + sz o) % u64 = c.curMemSize + sz o := Nat.mod_eq_of_lt hfit
  have h := Put_modular_routing marshal c o data hrw hsz hm
  rw [hmod] at h
  obtain ⟨herr, hiff, hmem, hkv, hfs, -⟩ := h
  refine ⟨herr, ⟨fun hl => hiff.mp ⟨hl.1, hl.2.2⟩, fun hc => ?_⟩, hmem, hkv, hfs⟩
  have hp := hmem hc
  exact ⟨by rw [hp.1], by rw [hp.1], hp.2⟩

/-- Witness of C3, scenario S3: with `small_object_size = 64 KiB` and
`max_mem_size = 128 KiB` the first two 32-KiB objects are in memory, the third
one is appended to the memory list (96 KiB, nothing persisted), and the 65-KiB
object goes to the FSTree, not to memory.  A 48-KiB object put instead would
not fit in memory any more and go to the key/value store. -/
theorem Put_routing_witness :
    s3After2.mem.map (fun oi => oi.addr) = ["a", "b"] ∧
    ((Put payloadMarshal s3After2 (kibObject "c" 32 3)).c
        = { s3After2 with curMemSize := 64 * 1024 + 32 * 1024,
                          mem := s3After2.mem ++
                            [⟨"c", some (kibObject "c" 32 3), List.replicate (32 * 1024) 3⟩] } ∧
      (Put payloadMarshal s3After2 (kibObject "c" 32 3)).persisted = []) ∧
    ((Put payloadMarshal s3After3 (kibObject "d" 65 4)).c
        = { s3After3 with fsTree := [("d", List.replicate (65 * 1024) 4)] } ∧
      (Put payloadMarshal s3After3 (kibObject "d" 65 4)).persisted
        = [PersistCall.big ⟨"d", some (kibObject "d" 65 4), List.replicate (65 * 1024) 4⟩]) ∧
    ((Put payloadMarshal s3After3 (kibObject "e" 48 5)).c
        = { s3After3 with db := [("e", List.replicate (48 * 1024) 5)] } ∧
      (Put payloadMarshal s3After3 (kibObject "e" 48 5)).persisted
        = [PersistCall.small
            [⟨"e", some (kibObject "e" 48 5), List.replicate (48 * 1024) 5⟩]]) :=
  ⟨by decide,
   (Put_routing payloadMarshal s3After2 (kibObject "c" 32 3) (List.replicate (32 * 1024) 3)
     (by decide) (by decide) rfl (by decide)).2.2.1 (by decide),
   (Put_routing payloadMarshal s3After3 (kibObject "d" 65 4) (List.replicate (65 * 1024) 4)
     (by decide) (by decide) rfl (by decide)).2.2.2.2 (by decide),
   (Put_routing payloadMarshal s3After3 (kibObject "e" 48 5) (List.replicate (48 * 1024) 5)
     (by decide) (by decide) rfl (by decide)).2.2.2.1 (by decide)⟩

end WriteCache

namespace WriteCache

/-- C4. The memory bound is an invariant of `Put`: from a cache with
`curMemSize ≤ maxMemSize`, whatever `Put` returns, the cache after the call has
`curMemSize ≤ maxMemSize` (the sum `curMemSize + sz` being taken modulo
`2 ^ 64` as in the code), and `maxMemSize` itself is not changed. -/
theorem Put_memBound (marshal : Object → Except String Bytes) (c : cache) (o : Object)
    (hinv : c.curMemSize ≤ c.maxMemSize) :
    (Put marshal c o).c.curMemSize ≤ (Put marshal c o).c.maxMemSize ∧
    (Put marshal c o).c.maxMemSize = c.maxMemSize := by
  unfold Put
  cases marshal o with
  | error e => split_ifs <;> exact ⟨hinv, rfl⟩
  | ok data =>
    simp only
    split_ifs with h1 h2 h3 h4
    · exact ⟨hinv, rfl⟩
    · exact ⟨hinv, rfl⟩
    · exact ⟨h3.2, rfl⟩
    · exact ⟨hinv, rfl⟩
    · exact ⟨hinv, rfl⟩

/-- Witness of C4: a full memory buffer at the top of the `uint64` range, where
the sum wraps around. -/
theorem Put_memBound_witness :
    (Put payloadMarshal { emptyCache 9 9 (2 ^ 64 - 1) with curMemSize := 2 ^ 64 - 1 }
        ⟨"a", 3, [1]⟩).c.curMemSize ≤ 2 ^ 64 - 1 :=
  (Put_memBound payloadMarshal { emptyCache 9 9 (2 ^ 64 - 1) with curMemSize := 2 ^ 64 - 1 }
    ⟨"a", 3, [1]⟩ (Nat.le_refl _)).1

end WriteCache

namespace shard

/-- C5. `Head` of a shard with a write-cache: (1) when `writeCache.Head`
succeeds, that header is returned and the metabase is not consulted; (2) when it
fails with a not-found error, `Head` returns exactly the outcome of the
metabase lookup for (address, raw), the header on success and the error
unchanged on failure, after one call of each store; (3) when it fails with
another error, `Head` fails with an error wrapping that error and the metabase
is not consulted.  (4) Without a write-cache `Head` returns the metabase
outcome and only the metabase is consulted. -/
theorem Head_lookup_order (IsErrNotFound : GoError → Bool) (s : Shard) (prm : HeadPrm) :
    (s.hasWriteCache = true →
      (∀ header, s.writeCacheHead prm.addr = Except.ok header →
        Head IsErrNotFound s prm =
          { res := { obj := some header }, err := none
            calls := [Call.writeCacheHead prm.addr] }) ∧
      (∀ err, s.writeCacheHead prm.addr = Except.error err → IsErrNotFound err = true →
        (Head IsErrNotFound s prm).calls =
            [Call.writeCacheHead prm.addr, Call.metaBaseGet prm.addr prm.raw] ∧
        (∀ header, s.metaBaseGet prm.addr prm.raw = Except.ok header →
          (Head IsErrNotFound s prm).res = { obj := some header } ∧
          (Head IsErrNotFound s prm).err = none) ∧
        (∀ merr, s.metaBaseGet prm.addr prm.raw = Except.error merr →
          (Head IsErrNotFound s prm).res = { obj := none } ∧
          (Head IsErrNotFound s prm).err = some merr)) ∧
      (∀ err, s.writeCacheHead prm.addr = Except.error err → IsErrNotFound err = false →
        Head IsErrNotFound s prm =
          { res := { obj := none }
            err := some (GoError.wrapf "could not read header from write-cache" err)
            calls := [Call.writeCacheHead prm.addr] })) ∧
    (s.hasWriteCache = false →
      (Head IsErrNotFound s prm).calls = [Call.metaBaseGet prm.addr prm.raw] ∧
      (∀ header, s.metaBaseGet prm.addr prm.raw = Except.ok header →
        (Head IsErrNotFound s prm).res = { obj := some header } ∧
        (Head IsErrNotFound s prm).err = none) ∧
      (∀ merr, s.metaBaseGet prm.addr prm.raw = Except.error merr →
        (Head IsErrNotFound s prm).res = { obj := none } ∧
        (Head IsErrNotFound s prm).err = some merr)) := by
  refine ⟨fun hwc => ⟨?_, ?_, ?_⟩, fun hwc => ?_⟩
  · intro header hh
    simp [Head, hwc, hh]
  · intro err he hnf
    have hH : Head IsErrNotFound s prm = headMeta s prm [Call.writeCacheHead prm.addr] := by
      simp [Head, hwc, he, hnf]
    rw [hH]
    refine ⟨?_, ?_, ?_⟩
    · unfold headMeta
      cases s.metaBaseGet prm.addr prm.raw <;> simp
    · intro header hm
      simp [headMeta, hm]
    · intro merr hm
      simp [headMeta, hm]
  · intro err he hnf
    simp [Head, hwc, he, hnf]
  · have hH : Head IsErrNotFound s prm = headMeta s prm [] := by
      simp [Head, hwc]
    rw [hH]
    refine ⟨?_, ?_, ?_⟩
    · unfold headMeta
      cases s.metaBaseGet prm.addr prm.raw <;> simp
    · intro header hm
      simp [headMeta, hm]
    · intro merr hm
      simp [headMeta, hm]

/-- Witness of C5 on `demoShard`: "a" is served by the write-cache alone; "b"
and "c" miss the write-cache and get the metabase header and the metabase
error; "x" fails with the wrapped write-cache error; without a write-cache "b"
is served by the metabase alone. -/
theorem Head_lookup_order_witness :
    Head isNotFound (demoShard true) ⟨"a", false⟩ =
      { res := { obj := some ⟨"a", 10, [1]⟩ }, err := none
        calls := [Call.writeCacheHead "a"] } ∧
    ((Head isNotFound (demoShard true) ⟨"b", true⟩).calls =
        [Call.writeCacheHead "b", Call.metaBaseGet "b" true] ∧
      (Head isNotFound (demoShard true) ⟨"b", true⟩).res = { obj := some ⟨"b", 20, [2]⟩ } ∧
      (Head isNotFound (demoShard true) ⟨"b", true⟩).err = none) ∧
    ((Head isNotFound (demoShard true) ⟨"c", false⟩).res = { obj := none } ∧
      (Head isNotFound (demoShard true) ⟨"c", false⟩).err = some alreadyRemoved) ∧
    Head isNotFound (demoShard true) ⟨"x", false⟩ =
      { res := { obj := none }
        err := some (GoError.wrapf "could not read header from write-cache"
          (GoError.external "unexpected EOF"))
        calls := [Call.writeCacheHead "x"] } ∧
    ((Head isNotFound (demoShard false) ⟨"b", false⟩).calls = [Call.metaBaseGet "b" false] ∧
      (Head isNotFound (demoShard false) ⟨"b", false⟩).res = { obj := some ⟨"b", 20, [2]⟩ }) :=
  have hb := ((Head_lookup_order isNotFound (demoShard true) ⟨"b", true⟩).1 rfl).2.1
    notFound rfl rfl
  have hc := ((Head_lookup_order isNotFound (demoShard true) ⟨"c", false⟩).1 rfl).2.1
    notFound rfl rfl
  have hn := (Head_lookup_order isNotFound (demoShard false) ⟨"b", false⟩).2 rfl
  ⟨((Head_lookup_order isNotFound (demoShard true) ⟨"a", false⟩).1 rfl).1 ⟨"a", 10, [1]⟩ rfl,
   ⟨hb.1, (hb.2.1 ⟨"b", 20, [2]⟩ rfl).1, (hb.2.1 ⟨"b", 20, [2]⟩ rfl).2⟩,
   hc.2.2 alreadyRemoved rfl,
   ((Head_lookup_order isNotFound (demoShard true) ⟨"x", false⟩).1 rfl).2.2
     (GoError.external "unexpected EOF") rfl rfl,
   ⟨hn.1, (hn.2.1 ⟨"b", 20, [2]⟩ rfl).1⟩⟩

end shard

namespace WriteCache

/-- C6. `writeObject`: (1) with `metaOnly = false` and `BlobStore.Put` failing
with `e`, it returns `e` and `Metabase.Put` is not invoked; (2) with
`metaOnly = false` and `BlobStore.Put` succeeding with location hint `h`,
`Metabase.Put` is invoked exactly once, after it, with `(obj, h)`, and
`writeObject` returns exactly its error (`nil` on success); (3) with
`metaOnly = true`, `BlobStore.Put` is not invoked and `Metabase.Put` is invoked
exactly once with the object and a null hint, its error being returned. -/
theorem writeObject_order {σ : Type} (st : Storage σ) (obj : Object) (s : σ) :
    (∀ e, (st.blobstorPut obj s).1 = Except.error e →
      (writeObject st obj false s).err = some e ∧
      (writeObject st obj false s).calls = [StoreCall.blobstorPut obj] ∧
      (writeObject st obj false s).state = (st.blobstorPut obj s).2) ∧
    (∀ h, (st.blobstorPut obj s).1 = Except.ok h →
      (writeObject st obj false s).calls =
        [StoreCall.blobstorPut obj, StoreCall.metabasePut obj h] ∧
      (writeObject st obj false s).err = (st.metabasePut obj h (st.blobstorPut obj s).2).1 ∧
      (writeObject st obj false s).state = (st.metabasePut obj h (st.blobstorPut obj s).2).2) ∧
    ((writeObject st obj true s).calls = [StoreCall.metabasePut obj none] ∧
      (writeObject st obj true s).err = (st.metabasePut obj none s).1 ∧
      (writeObject st obj true s).state = (st.metabasePut obj none s).2) := by
  refine ⟨?_, ?_, ?_⟩
  · intro e he
    simp [writeObject, he]
  · intro h hh
    simp [writeObject, hh]
  · simp [writeObject]

/-- Witness of C6 on `demoStorage`: a failing blobstor, a blobstor giving the
hint `[7]` with a metabase that accepts and one that refuses, and a
metabase-only write. -/
theorem writeObject_order_witness :
    ((writeObject demoStorage ⟨"a", 1, []⟩ false 1).err = some (GoError.external "disk") ∧
      (writeObject demoStorage ⟨"a", 1, []⟩ false 1).calls
        = [StoreCall.blobstorPut ⟨"a", 1, []⟩]) ∧
    ((writeObject demoStorage ⟨"a", 1, []⟩ false 0).calls
        = [StoreCall.blobstorPut ⟨"a", 1, []⟩, StoreCall.metabasePut ⟨"a", 1, []⟩ (some [7])] ∧
      (writeObject demoStorage ⟨"a", 1, []⟩ false 0).err = none) ∧
    (writeObject demoStorage ⟨"bad", 1, []⟩ false 0).err = some (GoError.external "metabase") ∧
    (writeObject demoStorage ⟨"bad", 1, []⟩ true 0).calls
        = [StoreCall.metabasePut ⟨"bad", 1, []⟩ none] :=
  have h1 := (writeObject_order demoStorage ⟨"a", 1, []⟩ 1).1 (GoError.external "disk") rfl
  have h2 := (writeObject_order demoStorage ⟨"a", 1, []⟩ 0).2.1 (some [7]) rfl
  have h3 := (writeObject_order demoStorage ⟨"bad", 1, []⟩ 0).2.1 none rfl
  ⟨⟨h1.1, h1.2.1⟩, ⟨h2.1, h2.2.1⟩, h3.2.1,
   (writeObject_order demoStorage ⟨"bad", 1, []⟩ 0).2.2.1⟩

end WriteCache

namespace WriteCache

/-- A key is in the flushed set after an `Add` when it is the key added or was
in the set before. -/
theorem flushedPeek_flushedAdd (key : String) (value : Bool) (flushed : List (String × Bool))
    (k : String) :
    flushedPeek (flushedAdd key value flushed) k = (decide (key = k) || flushedPeek flushed k) := by
  unfold flushedPeek flushedAdd
  by_cases hk : key = k
  · simp [hk]
  · simp only [List.any_cons, hk, decide_False, Bool.false_or]
    rw [Bool.eq_iff_iff]
    simp only [List.any_eq_true, List.mem_filter, decide_eq_true_eq, Bool.not_eq_true',
      decide_eq_false_iff_not]
    constructor
    · rintro ⟨e, ⟨he, -⟩, hek⟩
      exact ⟨e, he, hek⟩
    · rintro ⟨e, he, hek⟩
      exact ⟨e, ⟨he, fun h => hk (h.symm.trans hek)⟩, hek⟩

/-- After the loop of `flush` that adds the batch to the flushed set, a key is
in the set when it is the address of an entry of the batch or was in the set. -/
theorem flushedPeek_foldl (m : List objectInfo) :
    ∀ (flushed : List (String × Bool)) (k : String),
      flushedPeek (m.foldl (fun fl oi => flushedAdd oi.addr true fl) flushed) k =
        (m.any (fun oi => decide (oi.addr = k)) || flushedPeek flushed k) := by
  induction m with
  | nil => intro flushed k; simp
  | cons oi m ih =>
    intro flushed k
    simp only [List.foldl_cons, List.any_cons]
    rw [ih, flushedPeek_flushedAdd]
    cases decide (oi.addr = k) <;> cases List.any m (fun oi => decide (oi.addr = k)) <;> simp

/-- A pass of `flush` that runs to its end with a batch counts the whole batch
in its call of `evictObjects` and adds the address of every entry of the batch
to the flushed set, whether or not the entry could be unmarshalled. -/
theorem flushPass_marks_whole_batch (unmarshal : Bytes → Option Object) (c : cache)
    (choices : List Bool) (hrw : c.readOnly = false)
    (hend : (flushPass unmarshal c choices).ending = PassEnd.again) :
    (flushPass unmarshal c choices).evictCalls = [(flushPass unmarshal c choices).batch.length] ∧
    ∀ oi ∈ (flushPass unmarshal c choices).batch,
      flushedPeek (flushPass unmarshal c choices).c.flushed oi.addr = true := by
  unfold flushPass at hend ⊢
  simp only [hrw, Bool.false_eq_true, if_false] at hend ⊢
  split_ifs at hend ⊢ with h1 h2
  refine ⟨rfl, ?_⟩
  intro oi hoi
  simp only
  rw [flushedPeek_foldl]
  have : (collectBatch c.flushed c.db []).any (fun o => decide (o.addr = oi.addr)) = true :=
    List.any_eq_true.mpr ⟨oi, hoi, by simp⟩
  simp [this]

/-- Witness of `flushPass_marks_whole_batch` on `corruptCache`. -/
theorem flushPass_marks_whole_batch_witness :
    (flushPass demoUnmarshal corruptCache []).evictCalls = [2] ∧
    flushedPeek (flushPass demoUnmarshal corruptCache []).c.flushed "b" = true :=
  have h := flushPass_marks_whole_batch demoUnmarshal corruptCache [] rfl (by decide)
  ⟨h.1, h.2 ⟨"b", none, [0]⟩ (by decide)⟩

/-- C7, the code at the failing input.  In `corruptCache` the bytes under "b"
do not unmarshal.  The first pass of `flush` collects "a" and "b", sends only
the object "a" to the flush channel, calls `evictObjects(2)` and adds both "a"
and "b" to the flushed set; the second pass collects nothing and `flush`
ends: "b" is not selected again. -/
theorem flush_failed_entry_not_retried :
    demoUnmarshal [0] = none ∧
    (flushPass demoUnmarshal corruptCache []).batch
      = [⟨"a", none, [1, 7]⟩, ⟨"b", none, [0]⟩] ∧
    (flushPass demoUnmarshal corruptCache []).sent = [⟨"a", 2, [7]⟩] ∧
    (flushPass demoUnmarshal corruptCache []).evictCalls = [2] ∧
    flushedPeek (flushPass demoUnmarshal corruptCache []).c.flushed "b" = true ∧
    (flushPass demoUnmarshal (flushPass demoUnmarshal corruptCache []).c []).batch = [] ∧
    (flushPass demoUnmarshal (flushPass demoUnmarshal corruptCache []).c []).ending
      = PassEnd.done ∧
    (flush demoUnmarshal 2 corruptCache []).map (fun ps => ps.map (fun p => p.batch.length))
      = some [2, 0] := by
  refine ⟨rfl, by decide, by decide, by decide, by decide, by decide, by decide, by decide⟩

/-- C8, the code.  `flushBigObjects` has not returned after any schedule of
events, from any state: no case of its `select` returns, the case of `closeCh`
is empty.  So the `wg.Wait()` of `flushLoop` never completes, whatever the
workers do. -/
theorem flushBigObjects_never_returns (deps : BigDeps) (evs : List BigEvent) :
    ∀ st : BigState,
      (flushBigObjects deps evs st).2 = false ∧
      ∀ workersReturned : List Bool,
        flushLoopWaitDone workersReturned (flushBigObjects deps evs st).2 = false := by
  induction evs with
  | nil =>
    intro st
    simp [flushBigObjects, flushLoopWaitDone]
  | cons ev evs ih =>
    intro st
    have key : (flushBigObjects deps (ev :: evs) st).2 = false := by
      cases ev with
      | close =>
        simp only [flushBigObjects]
        exact (ih _).1
      | select case =>
        cases case with
        | tick =>
          simp only [flushBigObjects]
          have hne : (bigTick deps st).2 ≠ CaseEnd.returns := by
            unfold bigTick
            split_ifs <;> simp
          cases hc : (bigTick deps st).2 with
          | returns => exact absurd hc hne
          | fallsOut => exact (ih _).1
          | breaks => exact (ih _).1
        | closeCh =>
          simp only [flushBigObjects, bigClose]
          split_ifs
          · exact (ih _).1
          · exact (ih _).1
    refine ⟨key, ?_⟩
    intro ws
    simp [flushLoopWaitDone, key]

/-- C8 at the failing input: `closeCh` is closed and the `select` takes its case
three times; the flusher is still running. -/
theorem flushBigObjects_after_close :
    (flushBigObjects demoBigDeps
      [BigEvent.close, BigEvent.select BigCase.closeCh, BigEvent.select BigCase.closeCh,
        BigEvent.select BigCase.closeCh]
      ⟨emptyCache 100 10 20, false, [], []⟩).2 = false ∧
    flushLoopWaitDone [true, true] (flushBigObjects demoBigDeps
      [BigEvent.close, BigEvent.select BigCase.closeCh, BigEvent.select BigCase.closeCh,
        BigEvent.select BigCase.closeCh]
      ⟨emptyCache 100 10 20, false, [], []⟩).2 = false := by
  refine ⟨by decide, by decide⟩

/-- The sibling of `flushBigObjects`: a flush worker returns when its inner
`select` takes the case of the closed `closeCh`. -/
theorem flushWorker_returns_on_close {σ : Type} (st : Storage σ) (num : Int) (evs : List Event)
    (inner : Bool) (s : σ) (ch : Chans) (hq : ch.queue (priorityCh num) = [])
    (hc : ch.closed = true) :
    (flushWorker st num (Event.iterate Pick.closeCh :: evs) inner ch s).returned = true := by
  cases inner <;>
    simp [flushWorker, flushWorkerSelect, innerSelect, Chans.recv, hq, hc]

/-- Witness of `flushWorker_returns_on_close`: worker 0 with empty channels. -/
theorem flushWorker_returns_on_close_witness :
    (flushWorker demoStorage 0 [Event.iterate Pick.closeCh] false ⟨[], [], [], true⟩ 0).returned
      = true :=
  flushWorker_returns_on_close demoStorage 0 [] false 0 ⟨[], [], [], true⟩ rfl rfl

end WriteCache

namespace engineconfig

/-- The loop of `IterateShards` started at index `i`, when the sections `i`,
..., `i + k - 1` have a "blobstor.path" and the section `i + k` has none, breaks
at `i + k` after handing exactly those `k` sections to `f`, in order. -/
theorem shardLoop_run {Cfg : Type} (ops : ConfigOps Cfg) (c dflt : Cfg) (n : Nat)
    (hn : ops.Value (ops.Sub c (FormatUint n)) "blobstor.path" = none)
    (hlt : ∀ i, i < n → ops.Value (ops.Sub c (FormatUint i)) "blobstor.path" ≠ none)
    (hb : n < u64) :
    ∀ (k fuel i : Nat), i + k = n → k < fuel →
      shardLoop ops c dflt fuel i =
        some (n, (List.range' i k).map
          (fun j => ops.SetDefault (ops.Sub c (FormatUint j)) dflt)) := by
  intro k
  induction k with
  | zero =>
    intro fuel i hik hf
    obtain ⟨fuel, rfl⟩ : ∃ m, fuel = m + 1 := ⟨fuel - 1, by omega⟩
    have hi : i = n := by omega
    subst hi
    simp [shardLoop, hn]
  | succ k ih =>
    intro fuel i hik hf
    obtain ⟨fuel, rfl⟩ : ∃ m, fuel = m + 1 := ⟨fuel - 1, by omega⟩
    have hi : i < n := by omega
    have hv := hlt i hi
    have hmod : (i + 1) % u64 = i + 1 := Nat.mod_eq_of_lt (by omega)
    have hsome : (ops.Value (ops.Sub c (FormatUint i)) "blobstor.path").isNone = false := by
      cases h : ops.Value (ops.Sub c (FormatUint i)) "blobstor.path" with
      | none => exact absurd h hv
      | some v => rfl
    simp only [shardLoop, hsome, Bool.false_eq_true, if_false, hmod]
    rw [ih fuel (i + 1) (by omega) (by omega)]
    simp [List.range'_succ]

/-- C9. Let `n` (an index, so below `2 ^ 64`) be the least index whose section
"storage.shard.<n>" has no "blobstor.path" value.  Then `IterateShards`
returns (any amount of fuel above `n` gives the result), `f` is called exactly
`n` times, on the sections `0, 1, ..., n - 1` in increasing order, each with the
section "default" set as its default, and on no other section, and it panics
if and only if `required` is true and `n = 0`. -/
theorem IterateShards_consecutive {Cfg : Type} (ops : ConfigOps Cfg) (c : Cfg) (required : Bool)
    (n fuel : Nat)
    (hn : ops.Value (shardSection ops c n) "blobstor.path" = none)
    (hlt : ∀ i, i < n → ops.Value (shardSection ops c i) "blobstor.path" ≠ none)
    (hb : n < u64) (hf : n < fuel) :
    ∃ out, IterateShards ops c required fuel = some out ∧
      out.calls = (List.range n).map
        (fun i => ops.SetDefault (shardSection ops c i) (defaultSection ops c)) ∧
      out.calls.length = n ∧
      (out.panicked = true ↔ (required = true ∧ n = 0)) := by
  have h := shardLoop_run ops (ops.Sub (ops.Sub c "storage") "shard")
    (ops.Sub (ops.Sub (ops.Sub c "storage") "shard") "default") n hn hlt hb n fuel 0
    (by omega) hf
  refine ⟨_, by rw [IterateShards, h]; rfl, ?_, ?_, ?_⟩
  · simp [List.range_eq_range', shardSection, defaultSection]
  · simp
  · simp [and_comm]

/-- Witness of C9 on `demoCfg`, whose sections 0 and 1 have a path, section 2
has none and section 3 has one: `f` is called on the sections 0 and 1 and there
is no panic, also when shards are required. -/
theorem IterateShards_consecutive_witness :
    ∃ out, IterateShards demoOps demoCfg true 5 = some out ∧
      out.calls = (List.range 2).map
        (fun i => demoOps.SetDefault (shardSection demoOps demoCfg i)
          (defaultSection demoOps demoCfg)) ∧
      out.calls.length = 2 ∧
      (out.panicked = true ↔ (true = true ∧ 2 = 0)) :=
  IterateShards_consecutive demoOps demoCfg true 2 5 (by decide) (by decide) (by decide)
    (by decide)

end engineconfig

namespace WriteCache

/-- The flag computed on the priority branch, `num % 3 == 1`, is set exactly
when the priority channel is the metabase-only channel. -/
theorem priorityCh_metaOnly (num : Int) :
    decide (Int.tmod num 3 = 1) = true ↔ priorityCh num = Chan.metaCh := by
  unfold priorityCh
  by_cases h0 : Int.tmod num 3 = 0
  · simp [h0]
  · by_cases h1 : Int.tmod num 3 = 1
    · simp [h1]
    · simp [h0, h1]

/-- An object delivered by the inner `select` carries `metaOnly = true` exactly
when it comes from the metabase-only channel. -/
theorem innerSelect_metaOnly (pick : Pick) (ch : Chans) (obj : Object) (metaOnly : Bool)
    (src : Chan) (ch₁ : Chans) (h : innerSelect pick ch = Selected.object obj metaOnly src ch₁) :
    metaOnly = true ↔ src = Chan.metaCh := by
  unfold innerSelect at h
  cases pick with
  | directCh =>
    cases hr : ch.recv Chan.directCh with
    | none => simp [hr] at h
    | some p =>
      simp only [hr, Selected.object.injEq] at h
      obtain ⟨-, hm, hs, -⟩ := h
      subst hm; subst hs; simp
  | flushCh =>
    cases hr : ch.recv Chan.flushCh with
    | none => simp [hr] at h
    | some p =>
      simp only [hr, Selected.object.injEq] at h
      obtain ⟨-, hm, hs, -⟩ := h
      subst hm; subst hs; simp
  | metaCh =>
    cases hr : ch.recv Chan.metaCh with
    | none => simp [hr] at h
    | some p =>
      simp only [hr, Selected.object.injEq] at h
      obtain ⟨-, hm, hs, -⟩ := h
      subst hm; subst hs; simp
  | closeCh =>
    simp only at h
    split_ifs at h

/-- An object delivered by either `select` of an iteration carries
`metaOnly = true` exactly when it comes from the metabase-only channel. -/
theorem flushWorkerSelect_metaOnly (num : Int) (pick : Pick) (ch : Chans) (obj : Object)
    (metaOnly : Bool) (src : Chan) (ch₁ : Chans)
    (h : flushWorkerSelect num pick ch = Selected.object obj metaOnly src ch₁) :
    metaOnly = true ↔ src = Chan.metaCh := by
  unfold flushWorkerSelect at h
  cases hr : ch.recv (priorityCh num) with
  | none =>
    simp only [hr] at h
    exact innerSelect_metaOnly pick ch obj metaOnly src ch₁ h
  | some p =>
    simp only [hr, Selected.object.injEq] at h
    obtain ⟨-, hm, hs, -⟩ := h
    subst hm; subst hs
    exact priorityCh_metaOnly num

/-- Every call of `writeObject` in a run of a worker has `metaOnly = true`
exactly when its object came from the metabase-only channel. -/
theorem flushWorker_writes_metaOnly {σ : Type} (st : Storage σ) (num : Int) (evs : List Event) :
    ∀ (inner : Bool) (ch : Chans) (s : σ) (w : WorkerWrite),
      w ∈ (flushWorker st num evs inner ch s).writes →
      (w.metaOnly = true ↔ w.src = Chan.metaCh) := by
  induction evs with
  | nil =>
    intro inner ch s w hw
    simp [flushWorker] at hw
  | cons ev evs ih =>
    intro inner ch s w hw
    cases ev with
    | send k obj =>
      simp only [flushWorker] at hw
      exact ih _ _ _ w hw
    | close =>
      simp only [flushWorker] at hw
      exact ih _ _ _ w hw
    | iterate pick =>
      simp only [flushWorker] at hw
      cases hsel : (if inner then innerSelect pick ch else flushWorkerSelect num pick ch) with
      | ret => simp [hsel] at hw
      | waiting =>
        simp only [hsel] at hw
        exact ih _ _ _ w hw
      | object obj metaOnly src ch₁ =>
        simp only [hsel, List.mem_cons] at hw
        rcases hw with hw | hw
        · subst hw
          cases inner with
          | true =>
            simp only [if_true] at hsel
            exact innerSelect_metaOnly pick ch obj metaOnly src ch₁ hsel
          | false =>
            simp only [Bool.false_eq_true, if_false] at hsel
            exact flushWorkerSelect_metaOnly num pick ch obj metaOnly src ch₁ hsel
        · exact ih _ _ _ w hw

/-- The inner `select` taking the case of a channel with an item ready
receives the next object of that channel, with `metaOnly` set for `metaCh`
only, whatever the other channels hold. -/
theorem innerSelect_ready (k : Chan) (ch : Chans) (obj : Object) (rest : List Object)
    (hq : ch.queue k = obj :: rest) :
    innerSelect (Pick.ofChan k) ch =
      Selected.object obj (decide (k = Chan.metaCh)) k (ch.setQueue k rest) := by
  cases k <;> simp [innerSelect, Pick.ofChan, Chans.recv, hq]

/-- An iteration of a worker whose `select`s deliver an object calls
`writeObject` on that object with the delivered flag and goes on from the
storage state `writeObject` leaves. -/
theorem flushWorker_step {σ : Type} (st : Storage σ) (num : Int) (pick : Pick)
    (evs : List Event) (inner : Bool) (ch : Chans) (s : σ) (obj : Object) (metaOnly : Bool)
    (src : Chan) (ch₁ : Chans)
    (h : (if inner then innerSelect pick ch else flushWorkerSelect num pick ch)
          = Selected.object obj metaOnly src ch₁) :
    (flushWorker st num (Event.iterate pick :: evs) inner ch s).writes =
      ⟨obj, metaOnly, src⟩ ::
        (flushWorker st num evs false ch₁ (writeObject st obj metaOnly s).state).writes ∧
    (flushWorker st num (Event.iterate pick :: evs) inner ch s).calls =
      (writeObject st obj metaOnly s).calls ++
        (flushWorker st num evs false ch₁ (writeObject st obj metaOnly s).state).calls ∧
    (flushWorker st num (Event.iterate pick :: evs) inner ch s).state =
      (flushWorker st num evs false ch₁ (writeObject st obj metaOnly s).state).state ∧
    (flushWorker st num (Event.iterate pick :: evs) inner ch s).returned =
      (flushWorker st num evs false ch₁ (writeObject st obj metaOnly s).state).returned := by
  simp only [flushWorker, h, and_self]

/-- C10 as stated fails.  Worker 1 has `metaCh` as its priority channel.  It
starts an iteration with every channel empty, so its outer `select` falls to
the inner one, where it waits.  Then "m" is sent to `metaCh` and "d" to
`directCh`.  The priority channel has an item ready, yet the inner `select`
may take the case of `directCh`: the worker takes "d" and writes it, "m" is
still queued in `metaCh`. -/
theorem flushWorker_inner_counterexample :
    priorityCh 1 = Chan.metaCh ∧
    (⟨[⟨"d", 1, []⟩], [], [⟨"m", 1, []⟩], false⟩ : Chans).queue (priorityCh 1)
      = [⟨"m", 1, []⟩] ∧
    innerSelect Pick.directCh ⟨[⟨"d", 1, []⟩], [], [⟨"m", 1, []⟩], false⟩ =
      Selected.object ⟨"d", 1, []⟩ false Chan.directCh ⟨[], [], [⟨"m", 1, []⟩], false⟩ ∧
    (flushWorker demoStorage 1
        [Event.iterate Pick.directCh, Event.send Chan.metaCh ⟨"m", 1, []⟩,
          Event.send Chan.directCh ⟨"d", 1, []⟩, Event.iterate Pick.directCh]
        false ⟨[], [], [], false⟩ 0).writes
      = [⟨⟨"d", 1, []⟩, false, Chan.directCh⟩] ∧
    (flushWorker demoStorage 1
        [Event.iterate Pick.directCh, Event.send Chan.metaCh ⟨"m", 1, []⟩,
          Event.send Chan.directCh ⟨"d", 1, []⟩, Event.iterate Pick.directCh]
        false ⟨[], [], [], false⟩ 0).chans.metaCh
      = [⟨"m", 1, []⟩] := by
  refine ⟨by decide, by decide, by decide, by decide, by decide⟩

/-- C10, amended.  For a worker number `num ≥ 0` the priority channel is
`flushCh` when `num mod 3 = 0`, `metaCh` when `num mod 3 = 1` and `directCh`
when `num mod 3 = 2`.  Whenever that channel has an item ready when the worker
starts an iteration (at the outer `select`, which does not wait), the worker
takes its next object from it; a worker that waits in the inner `select`
takes the next object of the ready channel whose case the `select` takes,
which need not be the priority channel.  In every iteration, whichever
`select` branch delivered the object, `writeObject` is called on that object
with `metaOnly = true` if and only if the object came from `metaCh`: the calls
made to the main storage and its state are those of that call of
`writeObject`, followed by those of the rest of the run. -/
theorem flushWorker_lanes (num : Int) (hnum : 0 ≤ num) :
    (num % 3 = 0 → priorityCh num = Chan.flushCh) ∧
    (num % 3 = 1 → priorityCh num = Chan.metaCh) ∧
    (num % 3 = 2 → priorityCh num = Chan.directCh) ∧
    (∀ (pick : Pick) (ch : Chans) (obj : Object) (rest : List Object),
      ch.queue (priorityCh num) = obj :: rest →
      flushWorkerSelect num pick ch =
        Selected.object obj (decide (priorityCh num = Chan.metaCh)) (priorityCh num)
          (ch.setQueue (priorityCh num) rest)) ∧
    (∀ (k : Chan) (ch : Chans) (obj : Object) (rest : List Object),
      ch.queue k = obj :: rest →
      innerSelect (Pick.ofChan k) ch =
        Selected.object obj (decide (k = Chan.metaCh)) k (ch.setQueue k rest)) ∧
    (∀ (σ : Type) (st : Storage σ) (pick : Pick) (evs : List Event) (inner : Bool) (ch : Chans)
      (s : σ) (obj : Object) (metaOnly : Bool) (src : Chan) (ch₁ : Chans),
      (if inner then innerSelect pick ch else flushWorkerSelect num pick ch)
        = Selected.object obj metaOnly src ch₁ →
      (metaOnly = true ↔ src = Chan.metaCh) ∧
      (flushWorker st num (Event.iterate pick :: evs) inner ch s).writes =
        ⟨obj, decide (src = Chan.metaCh), src⟩ ::
          (flushWorker st num evs false ch₁
            (writeObject st obj (decide (src = Chan.metaCh)) s).state).writes ∧
      (flushWorker st num (Event.iterate pick :: evs) inner ch s).calls =
        (writeObject st obj (decide (src = Chan.metaCh)) s).calls ++
          (flushWorker st num evs false ch₁
            (writeObject st obj (decide (src = Chan.metaCh)) s).state).calls ∧
      (flushWorker st num (Event.iterate pick :: evs) inner ch s).state =
        (flushWorker st num evs false ch₁
          (writeObject st obj (decide (src = Chan.metaCh)) s).state).state) ∧
    (∀ (σ : Type) (st : Storage σ) (evs : List Event) (inner : Bool) (ch : Chans) (s : σ)
      (w : WorkerWrite), w ∈ (flushWorker st num evs inner ch s).writes →
      (w.metaOnly = true ↔ w.src = Chan.metaCh)) := by
  have ht : Int.tmod num 3 = num % 3 := Int.tmod_eq_emod hnum (by decide)
  refine ⟨?_, ?_, ?_, ?_, ?_, ?_, ?_⟩
  · intro h
    simp [priorityCh, ht, h]
  · intro h
    simp [priorityCh, ht, h]
  · intro h
    simp [priorityCh, ht, h]
  · intro pick ch obj rest hq
    have hd : decide (Int.tmod num 3 = 1) = decide (priorityCh num = Chan.metaCh) := by
      rw [Bool.eq_iff_iff]
      simpa using priorityCh_metaOnly num
    simp [flushWorkerSelect, Chans.recv, hq, hd]
  · exact innerSelect_ready
  · intro σ st pick evs inner ch s obj metaOnly src ch₁ h
    have hiff : metaOnly = true ↔ src = Chan.metaCh := by
      cases inner with
      | true =>
        simp only [if_true] at h
        exact innerSelect_metaOnly pick ch obj metaOnly src ch₁ h
      | false =>
        simp only [Bool.false_eq_true, if_false] at h
        exact flushWorkerSelect_metaOnly num pick ch obj metaOnly src ch₁ h
    have hflag : decide (src = Chan.metaCh) = metaOnly := by
      rw [Bool.eq_iff_iff]
      simpa using hiff.symm
    rw [hflag]
    have hstep := flushWorker_step st num pick evs inner ch s obj metaOnly src ch₁ h
    exact ⟨hiff, hstep.1, hstep.2.1, hstep.2.2.1⟩
  · intro σ st evs
    exact flushWorker_writes_metaOnly st num evs

/-- Witness of C10: worker 4 has `metaCh` as its priority channel.  Starting an
iteration with "d", "f" and "m" ready, it takes "m" from `metaCh` and calls
`writeObject` on it with `metaOnly = true`, which puts it to the metabase
only; in its next iteration `metaCh` is empty and the inner `select` takes "d"
from `directCh`, written with `metaOnly = false` to the blobstor and then to
the metabase with the hint of the blobstor. -/
theorem flushWorker_lanes_witness :
    priorityCh 4 = Chan.metaCh ∧
    flushWorkerSelect 4 Pick.directCh
        ⟨[⟨"d", 1, []⟩], [⟨"f", 1, []⟩], [⟨"m", 1, []⟩], false⟩ =
      Selected.object ⟨"m", 1, []⟩ true Chan.metaCh
        ⟨[⟨"d", 1, []⟩], [⟨"f", 1, []⟩], [], false⟩ ∧
    innerSelect Pick.flushCh ⟨[⟨"d", 1, []⟩], [⟨"f", 1, []⟩], [⟨"m", 1, []⟩], false⟩ =
      Selected.object ⟨"f", 1, []⟩ false Chan.flushCh
        ⟨[⟨"d", 1, []⟩], [], [⟨"m", 1, []⟩], false⟩ ∧
    (flushWorker demoStorage 4 [Event.iterate Pick.directCh, Event.iterate Pick.directCh] false
        ⟨[⟨"d", 1, []⟩], [⟨"f", 1, []⟩], [⟨"m", 1, []⟩], false⟩ 0).writes =
      [⟨⟨"m", 1, []⟩, true, Chan.metaCh⟩, ⟨⟨"d", 1, []⟩, false, Chan.directCh⟩] ∧
    (flushWorker demoStorage 4 [Event.iterate Pick.directCh, Event.iterate Pick.directCh] false
        ⟨[⟨"d", 1, []⟩], [⟨"f", 1, []⟩], [⟨"m", 1, []⟩], false⟩ 0).calls =
      [StoreCall.metabasePut ⟨"m", 1, []⟩ none, StoreCall.blobstorPut ⟨"d", 1, []⟩,
        StoreCall.metabasePut ⟨"d", 1, []⟩ (some [7])] ∧
    (flushWorker demoStorage 4 [Event.iterate Pick.directCh] false
        ⟨[⟨"d", 1, []⟩], [⟨"f", 1, []⟩], [⟨"m", 1, []⟩], false⟩ 0).calls =
      (writeObject demoStorage ⟨"m", 1, []⟩ (decide (Chan.metaCh = Chan.metaCh)) 0).calls ++
        (flushWorker demoStorage 4 [] false ⟨[⟨"d", 1, []⟩], [⟨"f", 1, []⟩], [], false⟩
          (writeObject demoStorage ⟨"m", 1, []⟩
            (decide (Chan.metaCh = Chan.metaCh)) 0).state).calls :=
  have h := flushWorker_lanes 4 (by decide)
  ⟨h.2.1 (by decide),
   h.2.2.2.1 Pick.directCh ⟨[⟨"d", 1, []⟩], [⟨"f", 1, []⟩], [⟨"m", 1, []⟩], false⟩
     ⟨"m", 1, []⟩ [] rfl,
   h.2.2.2.2.1 Chan.flushCh ⟨[⟨"d", 1, []⟩], [⟨"f", 1, []⟩], [⟨"m", 1, []⟩], false⟩
     ⟨"f", 1, []⟩ [] rfl,
   by decide,
   by decide,
   (h.2.2.2.2.2.1 Nat demoStorage Pick.directCh [] false
     ⟨[⟨"d", 1, []⟩], [⟨"f", 1, []⟩], [⟨"m", 1, []⟩], false⟩ 0
     ⟨"m", 1, []⟩ true Chan.metaCh ⟨[⟨"d", 1, []⟩], [⟨"f", 1, []⟩], [], false⟩
     (by decide)).2.2.1⟩

end WriteCache

namespace client

/-- An attempt that does not succeed in full sends the loop of `switchRPC` on
to the next endpoint, with `curr` set to the index of the attempt and the
address added to the dialed ones. -/
theorem switchLoop_skip (net : Nat → String → Attempt) (x : Endpoint) (rest : List Endpoint)
    (i : Nat) (c : Client) (dialed : List String) (hx : (net i x.Address).good = false) :
    ∃ c₁ : Client, c₁.endpoints.curr = i ∧
      switchLoop net (x :: rest) i c dialed =
        switchLoop net rest (i + 1) c₁ (dialed ++ [x.Address]) := by
  unfold Attempt.good at hx
  rcases hc : (net i x.Address).connect with _ | _
  · exact ⟨{ c with endpoints := { c.endpoints with curr := i } }, rfl,
      by simp [switchLoop, hc]⟩
  · rcases hi : (net i x.Address).init with _ | _
    · exact ⟨{ c with endpoints := { c.endpoints with curr := i } }, rfl,
        by simp [switchLoop, hc, hi]⟩
    · rcases hr : (net i x.Address).restore with _ | _
      · exact ⟨{ endpoints := { c.endpoints with curr := i }, client := x.Address
                 clientClosed := true, invalidated := c.invalidated + 1 }, rfl,
          by simp [switchLoop, hc, hi, hr]⟩
      · simp [hc, hi, hr] at hx

/-- The loop of `switchRPC` keeps the addresses dialed before it. -/
theorem switchLoop_dialed_mono (net : Nat → String → Attempt) (l : List Endpoint) :
    ∀ (i : Nat) (c : Client) (dialed : List String) (a : String),
      a ∈ dialed → a ∈ (switchLoop net l i c dialed).dialed := by
  induction l with
  | nil => intro i c dialed a ha; simpa [switchLoop] using ha
  | cons x rest ih =>
    intro i c dialed a ha
    unfold switchLoop
    split_ifs
    · exact ih _ _ _ a (List.mem_append_left _ ha)
    · exact ih _ _ _ a (List.mem_append_left _ ha)
    · exact ih _ _ _ a (List.mem_append_left _ ha)
    · exact List.mem_append_left _ ha

/-- The loop of `switchRPC` started at index `i` dials the endpoint at position
`n` of its list whenever no attempt before that position succeeds in full. -/
theorem switchLoop_dials (net : Nat → String → Attempt) (l : List Endpoint) :
    ∀ (n i : Nat) (c : Client) (dialed : List String) (x : Endpoint),
      l[n]? = some x →
      (∀ j y, j < n → l[j]? = some y → (net (i + j) y.Address).good = false) →
      x.Address ∈ (switchLoop net l i c dialed).dialed := by
  induction l with
  | nil => intro n i c dialed x hx; simp at hx
  | cons y rest ih =>
    intro n i c dialed x hx hbad
    cases n with
    | zero =>
      simp only [List.getElem?_cons_zero, Option.some.injEq] at hx
      subst hx
      unfold switchLoop
      split_ifs
      · exact switchLoop_dialed_mono net rest _ _ _ _ (by simp)
      · exact switchLoop_dialed_mono net rest _ _ _ _ (by simp)
      · exact switchLoop_dialed_mono net rest _ _ _ _ (by simp)
      · simp
    | succ n =>
      simp only [List.getElem?_cons_succ] at hx
      have hy : (net i y.Address).good = false := by
        simpa using hbad 0 y (Nat.succ_pos n) (by simp)
      obtain ⟨c₁, -, hstep⟩ := switchLoop_skip net y rest i c dialed hy
      rw [hstep]
      refine ih n (i + 1) c₁ _ x hx ?_
      intro j z hj hz
      have := hbad (j + 1) z (by omega) (by simpa using hz)
      rwa [show i + (j + 1) = i + 1 + j by omega] at this

/-- When the endpoints `pre` all fail and the next endpoint `e` succeeds in
full, the loop of `switchRPC` returns `true` with `curr` at the index of `e`,
`c.client` an open client of `e`, having dialed `pre` and `e` in list order
and nothing after `e`. -/
theorem switchLoop_found (net : Nat → String → Attempt) (pre : List Endpoint) :
    ∀ (e : Endpoint) (post : List Endpoint) (i : Nat) (c : Client) (dialed : List String),
      (∀ j y, pre[j]? = some y → (net (i + j) y.Address).good = false) →
      (net (i + pre.length) e.Address).good = true →
      (switchLoop net (pre ++ e :: post) i c dialed).ok = true ∧
      (switchLoop net (pre ++ e :: post) i c dialed).c.endpoints.curr = i + pre.length ∧
      (switchLoop net (pre ++ e :: post) i c dialed).c.client = e.Address ∧
      (switchLoop net (pre ++ e :: post) i c dialed).c.clientClosed = false ∧
      (switchLoop net (pre ++ e :: post) i c dialed).dialed =
        dialed ++ (pre ++ [e]).map (fun x => x.Address) := by
  induction pre with
  | nil =>
    intro e post i c dialed _ hgood
    simp only [Attempt.good, List.length_nil, Nat.add_zero, Bool.and_eq_true] at hgood
    simp [switchLoop, hgood.1.1, hgood.1.2, hgood.2]
  | cons y pre ih =>
    intro e post i c dialed hbad hgood
    have hy : (net i y.Address).good = false := by simpa using hbad 0 y (by simp)
    obtain ⟨c₁, -, hstep⟩ := switchLoop_skip net y (pre ++ e :: post) i c dialed hy
    rw [List.cons_append, hstep]
    have h := ih e post (i + 1) c₁ (dialed ++ [y.Address])
      (fun j z hz => by
        have := hbad (j + 1) z (by simpa using hz)
        rwa [show i + (j + 1) = i + 1 + j by omega] at this)
      (by rwa [show i + 1 + pre.length = i + (y :: pre).length by simp; omega])
    refine ⟨h.1, ?_, h.2.2.1, h.2.2.2.1, ?_⟩
    · rw [h.2.1]; simp; omega
    · rw [h.2.2.2.2]; simp

/-- When no endpoint succeeds in full, the loop of `switchRPC` returns `false`
after dialing every endpoint in list order; `curr` is left at the last index. -/
theorem switchLoop_none (net : Nat → String → Attempt) (l : List Endpoint) :
    ∀ (i : Nat) (c : Client) (dialed : List String),
      (∀ j y, l[j]? = some y → (net (i + j) y.Address).good = false) →
      (switchLoop net l i c dialed).ok = false ∧
      (switchLoop net l i c dialed).dialed = dialed ++ l.map (fun x => x.Address) ∧
      (l ≠ [] → (switchLoop net l i c dialed).c.endpoints.curr = i + l.length - 1) := by
  induction l with
  | nil => intro i c dialed _; simp [switchLoop]
  | cons y rest ih =>
    intro i c dialed hbad
    have hy : (net i y.Address).good = false := by simpa using hbad 0 y (by simp)
    obtain ⟨c₁, hc₁, hstep⟩ := switchLoop_skip net y rest i c dialed hy
    rw [hstep]
    have h := ih (i + 1) c₁ (dialed ++ [y.Address])
      (fun j z hz => by
        have := hbad (j + 1) z (by simpa using hz)
        rwa [show i + (j + 1) = i + 1 + j by omega] at this)
    refine ⟨h.1, by rw [h.2.1]; simp, ?_⟩
    intro _
    cases rest with
    | nil => simpa [switchLoop] using hc₁
    | cons z rest₁ =>
      rw [h.2.2 (by simp)]
      simp only [List.length_cons]
      omega

/-- What `switchRPC` does, for every list of endpoints and every outcome of the
attempts: it dials the endpoints in list order from index 0; it returns `true`
with `curr` at the first endpoint whose connect, `Init` and subscription
restore all succeed, having dialed nothing after it, and `false` after dialing
all of them when there is none; and it does dial the endpoint that was
current whenever no endpoint before it succeeds in full. -/
theorem switchRPC_behaviour (net : Nat → String → Attempt) (c : Client) :
    (∀ (pre : List Endpoint) (e : Endpoint) (post : List Endpoint),
      c.endpoints.list = pre ++ e :: post →
      (∀ j y, pre[j]? = some y → (net j y.Address).good = false) →
      (net pre.length e.Address).good = true →
      (switchRPC net c).ok = true ∧
      (switchRPC net c).c.endpoints.curr = pre.length ∧
      (switchRPC net c).dialed = (pre ++ [e]).map (fun x => x.Address)) ∧
    ((∀ j y, c.endpoints.list[j]? = some y → (net j y.Address).good = false) →
      (switchRPC net c).ok = false ∧
      (switchRPC net c).dialed = c.endpoints.list.map (fun x => x.Address)) ∧
    (∀ cur : Endpoint, c.endpoints.list[c.endpoints.curr]? = some cur →
      (∀ j y, j < c.endpoints.curr → c.endpoints.list[j]? = some y →
        (net j y.Address).good = false) →
      cur.Address ∈ (switchRPC net c).dialed) := by
  refine ⟨?_, ?_, ?_⟩
  · intro pre e post hl hbad hgood
    unfold switchRPC
    rw [hl]
    have h := switchLoop_found net pre e post 0 { c with clientClosed := true } []
      (fun j y hy => by simpa using hbad j y hy) (by simpa using hgood)
    exact ⟨h.1, by simpa using h.2.1, by simpa using h.2.2.2.2⟩
  · intro hbad
    have h := switchLoop_none net c.endpoints.list 0 { c with clientClosed := true } []
      (fun j y hy => by simpa using hbad j y hy)
    exact ⟨h.1, by simpa [switchRPC] using h.2.1⟩
  · intro cur hcur hbad
    exact switchLoop_dials net c.endpoints.list c.endpoints.curr 0 _ [] cur hcur
      (fun j y hj hy => by simpa using hbad j y hj hy)

/-- Witness of `switchRPC_behaviour` on `demoClient 1` with only "b" up: "a"
fails, "b", the current endpoint, is dialed and taken. -/
theorem switchRPC_behaviour_witness :
    ((switchRPC onlyB (demoClient 1)).ok = true ∧
      (switchRPC onlyB (demoClient 1)).c.endpoints.curr = 1 ∧
      (switchRPC onlyB (demoClient 1)).dialed = ["a", "b"]) ∧
    "b" ∈ (switchRPC onlyB (demoClient 1)).dialed :=
  ⟨(switchRPC_behaviour onlyB (demoClient 1)).1 [⟨"a", 1⟩] ⟨"b", 2⟩ [] (by decide)
      (by
        intro j y hy
        cases j with
        | zero =>
          simp only [List.getElem?_cons_zero, Option.some.injEq] at hy
          subst hy
          decide
        | succ j => simp at hy)
      (by decide),
   (switchRPC_behaviour onlyB (demoClient 1)).2.2 ⟨"b", 2⟩ (by decide)
      (by
        intro j y hj hy
        have hj0 : j = 0 := by
          have : (demoClient 1).endpoints.curr = 1 := rfl
          omega
        subst hj0
        have hl : (demoClient 1).endpoints.list = [⟨"a", 1⟩, ⟨"b", 2⟩] := by decide
        rw [hl] at hy
        simp only [List.getElem?_cons_zero, Option.some.injEq] at hy
        subst hy
        decide)⟩

/-- C11, the code at the failing input.  The endpoints "b" (priority 2) and
"a" (priority 1) are ordered by `init` as "a", "b".  With the client on "a"
(index 0) and every node up, `switchRPC` hands "a", the current endpoint, to
`newWSClient` and returns `true` with `curr = 0`: it has switched to the
endpoint it was on.  With the client on "b" (index 1) and only "b" up, it
tries "a", then "b", the current endpoint, and returns `true` with `curr = 1`. -/
theorem switchRPC_dials_current :
    (endpoints.init [⟨"b", 2⟩, ⟨"a", 1⟩]).list = [⟨"a", 1⟩, ⟨"b", 2⟩] ∧
    (demoClient 0).client = "a" ∧
    (switchRPC allUp (demoClient 0)).dialed = ["a"] ∧
    (switchRPC allUp (demoClient 0)).ok = true ∧
    (switchRPC allUp (demoClient 0)).c.endpoints.curr = 0 ∧
    (switchRPC allUp (demoClient 0)).c.client = "a" ∧
    (demoClient 1).client = "b" ∧
    (switchRPC onlyB (demoClient 1)).dialed = ["a", "b"] ∧
    (switchRPC onlyB (demoClient 1)).ok = true ∧
    (switchRPC onlyB (demoClient 1)).c.endpoints.curr = 1 := by
  refine ⟨by decide, by decide, by decide, by decide, by decide, by decide, by decide,
    by decide, by decide, by decide⟩

end client
